import Mathlib

set_option linter.unusedVariables false

/-! Embedding of the WhatsApp chat analyzer sources: `preprocessing.py`
(the transcript scanner, timestamp parsing and record construction) and
`helper.py` (the analytics functions), together with theorems settling the
specification claims.  Strings are modelled as `List Char`; the fixed entry
pattern of `preprocessing.py` is embedded as a deterministic scanner whose
behaviour coincides with the Python regex `findall` on this particular
pattern (every quantified sub-pattern of the regex is followed by a
delimiter its character class cannot match, so backtracking never changes
the outcome; this is argued step by step in the comments below). -/

-- ===== basic character and string utilities =====

/-- Python whitespace class (`\s`, `str.strip`, `str.split`), restricted to
the ASCII whitespace characters used by the transcripts considered here. -/
def isPySpace (c : Char) : Bool :=
  c = ' ' || c = '\t' || c = '\n' || c = '\r' || c = '\x0b' || c = '\x0c'

/-- Lower-case every character (model of Python's case-insensitive
comparisons for the ASCII letters appearing in the am/pm markers). -/
def lowerList (cs : List Char) : List Char :=
  cs.map Char.toLower

/-- Python's `pat in s` substring test. -/
def containsSub (pat : List Char) : List Char → Bool
  | [] => pat.isEmpty
  | c :: cs => pat.isPrefixOf (c :: cs) || containsSub pat cs

/-- Python's `s.strip()`: drop leading and trailing whitespace. -/
def pyStrip (cs : List Char) : List Char :=
  ((cs.dropWhile isPySpace).reverse.dropWhile isPySpace).reverse

/-- Helper for `pySplitWs`: accumulate the current word (reversed). -/
def splitWsAux : List Char → List Char → List (List Char)
  | [], acc => if acc.isEmpty then [] else [acc.reverse]
  | c :: cs, acc =>
    if isPySpace c then
      if acc.isEmpty then splitWsAux cs [] else acc.reverse :: splitWsAux cs []
    else splitWsAux cs (c :: acc)

/-- Python's `s.split()`: split on whitespace runs, dropping empty pieces. -/
def pySplitWs (cs : List Char) : List (List Char) :=
  splitWsAux cs []

/-- The `": "` separator used by `preprocess` to split sender from body. -/
def sepTok : List Char := [':', ' ']

/-- Python's `msg.split(": ", 1)` when the separator occurs: the part before
the first `": "` and the part after it.  `none` when there is no separator. -/
def splitFirstSep : List Char → Option (List Char × List Char)
  | [] => none
  | [_] => none
  | c1 :: c2 :: r =>
    if c1 = ':' ∧ c2 = ' ' then some ([], r)
    else
      match splitFirstSep (c2 :: r) with
      | some p => some (c1 :: p.1, p.2)
      | none => none

/-- The sender/body split of `preprocess` (`preprocessing.py` lines 31-40):
split at the first `": "`, falling back to the `group_notification`
sentinel with the whole fragment as body when no separator exists. -/
def splitSenderBody (cs : List Char) : List Char × List Char :=
  match splitFirstSep cs with
  | some p => p
  | none => ("group_notification".data, cs)

-- ===== the entry scanner (the regex of `preprocessing.py` lines 7-15) =====

/-- Maximal digit run at the head of the input, with the rest. -/
def digitRun : List Char → List Char × List Char
  | [] => ([], [])
  | c :: cs =>
    if c.isDigit then
      let p := digitRun cs
      (c :: p.1, p.2)
    else ([], c :: cs)

/-- Greedy `\d{lo,hi}` whose follower in the pattern can never match a digit:
succeeds exactly when the maximal digit run has length in `[lo, hi]`. -/
def matchDigits (lo hi : Nat) (cs : List Char) : Option (List Char × List Char) :=
  let p := digitRun cs
  if lo ≤ p.1.length ∧ p.1.length ≤ hi then some (p.1, p.2) else none

/-- Match one literal character. -/
def matchLit (d : Char) : List Char → Option (List Char)
  | c :: cs => if c = d then some cs else none
  | [] => none

/-- Match a single `\s` character. -/
def matchSpace : List Char → Option (Char × List Char)
  | c :: cs => if isPySpace c then some (c, cs) else none
  | [] => none

/-- Match `(?:am|pm)` case-insensitively (the pattern is compiled with
`re.IGNORECASE`). -/
def matchAmPm : List Char → Option (List Char × List Char)
  | c1 :: c2 :: cs =>
    if (c1.toLower = 'a' ∨ c1.toLower = 'p') ∧ c2.toLower = 'm' then
      some ([c1, c2], cs)
    else none
  | _ => none

/-- Group 1 of the pattern:
`\d{1,2}/\d{1,2}/\d{2,4},\s\d{1,2}:\d{2}\s(?:am|pm)`. -/
def matchDT (cs : List Char) : Option (List Char × List Char) := do
  let (d1, r1) ← matchDigits 1 2 cs
  let r2 ← matchLit '/' r1
  let (d2, r3) ← matchDigits 1 2 r2
  let r4 ← matchLit '/' r3
  let (d3, r5) ← matchDigits 2 4 r4
  let r6 ← matchLit ',' r5
  let (s1, r7) ← matchSpace r6
  let (d4, r8) ← matchDigits 1 2 r7
  let r9 ← matchLit ':' r8
  let (d5, r10) ← matchDigits 2 2 r9
  let (s2, r11) ← matchSpace r10
  let (ap, r12) ← matchAmPm r11
  some (d1 ++ '/' :: d2 ++ '/' :: d3 ++ ',' :: s1 :: d4 ++ ':' :: d5 ++ s2 :: ap, r12)

/-- Maximal run of non-colon characters at the head of the input. -/
def spanNonColon : List Char → List Char × List Char
  | [] => ([], [])
  | c :: cs =>
    if c = ':' then ([], c :: cs)
    else
      let p := spanNonColon cs
      (c :: p.1, p.2)

/-- Group 2 of the pattern, `([^:]+?):` — the (non-empty) run up to the
first colon, consuming the colon; `[^:]` can never cross a colon, so the
non-greedy quantifier is deterministic here. -/
def matchSender (cs : List Char) : Option (List Char × List Char) :=
  let p := spanNonColon cs
  match p.2 with
  | ':' :: r => if p.1.isEmpty then none else some (p.1, r)
  | _ => none

/-- The date prefix of the lookahead, `\d{1,2}/\d{1,2}/\d{2,4},`. -/
def matchDatePrefix (cs : List Char) : Option (List Char) := do
  let (_, r1) ← matchDigits 1 2 cs
  let r2 ← matchLit '/' r1
  let (_, r3) ← matchDigits 1 2 r2
  let r4 ← matchLit '/' r3
  let (_, r5) ← matchDigits 2 4 r4
  matchLit ',' r5

/-- Does the lookahead alternative `\n\d{1,2}/\d{1,2}/\d{2,4},` hold here? -/
def boundaryHere (cs : List Char) : Bool :=
  match cs with
  | '\n' :: r => (matchDatePrefix r).isSome
  | _ => false

/-- Scan the body until the lookahead boundary (or end of input, `\Z`). -/
def bodySplit : List Char → List Char × List Char
  | [] => ([], [])
  | c :: cs =>
    if boundaryHere (c :: cs) then ([], c :: cs)
    else
      let p := bodySplit cs
      (c :: p.1, p.2)

/-- Group 3 of the pattern, `(.+?)(?=(?:\n\d{1,2}/\d{1,2}/\d{2,4},)|\Z)`:
at least one character (`re.DOTALL`, so newlines included), extended
minimally until the next date line or the end of input. -/
def matchBody : List Char → Option (List Char × List Char)
  | [] => none
  | c :: cs =>
    let p := bodySplit cs
    some (c :: p.1, p.2)

/-- One regex match: the three captured groups. -/
structure RawMatch where
  g1 : List Char
  g2 : List Char
  g3 : List Char
deriving DecidableEq

/-- Attempt the full entry pattern at the head of the input, returning the
captured groups and the rest of the input after the match. -/
def matchEntry (cs : List Char) : Option (RawMatch × List Char) := do
  let (g1, r1) ← matchDT cs
  let (_, r2) ← matchSpace r1
  let r3 ← matchLit '-' r2
  let (_, r4) ← matchSpace r3
  let (g2, r5) ← matchSender r4
  let (_, r6) ← matchSpace r5
  let (g3, r7) ← matchBody r6
  some (⟨g1, g2, g3⟩, r7)

/-- Fuelled scanner: try the pattern at each position, emitting matches and
resuming after each match, exactly as `re.findall` does. -/
def scanAux : Nat → List Char → List RawMatch
  | 0, _ => []
  | n + 1, cs =>
    match matchEntry cs with
    | some (m, rest) => m :: scanAux n rest
    | none =>
      match cs with
      | [] => []
      | _ :: t => scanAux n t

/-- `pattern.findall(data)` (`preprocessing.py` line 15). -/
def scanMatches (cs : List Char) : List RawMatch :=
  scanAux cs.length cs

-- ===== timestamps and the fixed datetime format =====

/-- A parsed timestamp at minute resolution (the `date` column produced by
`pd.to_datetime`). -/
structure Timestamp where
  year : Nat
  month : Nat
  day : Nat
  hour : Nat
  minute : Nat
deriving DecidableEq

/-- The POSIX `%y` century rule used by `strptime`/`pandas`: two-digit years
0-68 map to 2000-2068 and 69-99 to 1969-1999. -/
def century (y2 : Nat) : Nat :=
  if y2 ≤ 68 then 2000 + y2 else 1900 + y2

/-- Gregorian leap-year test. -/
def isLeap (y : Nat) : Bool :=
  (y % 4 == 0 && y % 100 != 0) || y % 400 == 0

/-- Days in a month (the calendar validation done by `datetime`). -/
def daysInMonth (mo y : Nat) : Nat :=
  if mo = 2 then (if isLeap y then 29 else 28)
  else if mo = 4 ∨ mo = 6 ∨ mo = 9 ∨ mo = 11 then 30
  else 31

/-- Match `\s+` (one or more whitespace characters): `strptime` replaces
every whitespace character of the format string by `\s+`. -/
def matchSpacePlus : List Char → Option (List Char)
  | c :: cs =>
    if isPySpace c then some ((cs.dropWhile isPySpace)) else none
  | [] => none

/-- Numeric value of a digit character. -/
def digitVal (c : Char) : Nat :=
  c.toNat - 48

/-- Numeric value of a digit string. -/
def digitsVal (ds : List Char) : Nat :=
  ds.foldl (fun a c => 10 * a + digitVal c) 0

/-- Range and calendar validation of the parsed date-time fields, plus the
requirement (from `strptime`) that the whole fragment was consumed: `%d`
admits 1-31, `%m` 1-12, `%I` 1-12, `%M` 0-59, and constructing the
`datetime` then checks the day against the month length. -/
def validateDT (ds1 ds2 ds3 ds4 ds5 ap r12 : List Char) : Option Timestamp :=
  let d := digitsVal ds1
  let mo := digitsVal ds2
  let y := century (digitsVal ds3)
  let h := digitsVal ds4
  let mi := digitsVal ds5
  if r12 = [] ∧ 1 ≤ d ∧ 1 ≤ mo ∧ mo ≤ 12 ∧ d ≤ daysInMonth mo y ∧
      1 ≤ h ∧ h ≤ 12 ∧ mi ≤ 59 then
    some ⟨y, mo, d, h % 12 + (if lowerList ap = "pm".data then 12 else 0), mi⟩
  else none

/-- Parse a date-time fragment with the fixed format `%d/%m/%y, %I:%M %p`
(`pd.to_datetime` on `preprocessing.py` line 25), including the calendar
validation performed by `datetime`.  As with the scanner, every numeric
field of the `strptime` pattern is followed by a token that cannot match a
digit, so the greedy digit runs are deterministic. -/
def parseDT (g : List Char) : Option Timestamp := do
  let (ds1, r1) ← matchDigits 1 2 g
  let r2 ← matchLit '/' r1
  let (ds2, r3) ← matchDigits 1 2 r2
  let r4 ← matchLit '/' r3
  let (ds3, r5) ← matchDigits 2 2 r4
  let r6 ← matchLit ',' r5
  let r7 ← matchSpacePlus r6
  let (ds4, r8) ← matchDigits 1 2 r7
  let r9 ← matchLit ':' r8
  let (ds5, r10) ← matchDigits 1 2 r9
  let r11 ← matchSpacePlus r10
  let (ap, r12) ← matchAmPm r11
  validateDT ds1 ds2 ds3 ds4 ds5 ap r12

-- ===== preprocess =====

/-- A parsed record: the `date`, `Sender` and `Message` columns of the
DataFrame returned by `preprocess`. -/
structure Record where
  date : Timestamp
  sender : List Char
  text : List Char
deriving DecidableEq

deriving instance DecidableEq for Except

/-- The narrow no-break space normalisation (`preprocessing.py` line 5). -/
def nnbsp : Char := Char.ofNat 8239

def normalizeNnbsp (cs : List Char) : List Char :=
  cs.map (fun c => if c = nnbsp then ' ' else c)

/-- The reassembled `user_message` string `f"{s}: {t}"` built from a match
(`preprocessing.py` lines 19-22). -/
def userMessage (m : RawMatch) : List Char :=
  m.g2 ++ sepTok ++ pyStrip m.g3

/-- `preprocessing.preprocess`: normalise the narrow no-break space, scan
for entries, parse every date with the fixed format (a single failure makes
the whole call raise), then split each reassembled fragment into sender and
message. -/
def preprocess (data : List Char) : Except String (List Record) :=
  let d := normalizeNnbsp data
  let ms := scanMatches d
  match ms.mapM (fun m => parseDT m.g1) with
  | none => .error "time data does not match format"
  | some ts =>
    .ok ((ms.zip ts).map (fun p =>
      let sb := splitSenderBody (userMessage p.1)
      ⟨p.2, sb.1, sb.2⟩))

-- ===== calendar arithmetic for the derived columns =====

/-- Day count of a proleptic Gregorian date (era-based civil-days formula);
used to derive weekday names and resampling bins. -/
def civilDays (y mo d : Nat) : Nat :=
  let yy := if mo ≤ 2 then y - 1 else y
  let era := yy / 400
  let yoe := yy % 400
  let mp := (mo + 9) % 12
  let doy := (153 * mp + 2) / 5 + (d - 1)
  let doe := yoe * 365 + yoe / 4 - yoe / 100 + doy
  era * 146097 + doe

/-- Day count of a timestamp (the calendar day holding it). -/
def tsDays (t : Timestamp) : Nat :=
  civilDays t.year t.month t.day

/-- Weekday index of a timestamp, `0` = Monday .. `6` = Sunday (the order of
the `days` list in `activity_heatmap`). -/
def weekdayIdx (t : Timestamp) : Nat :=
  (tsDays t + 2) % 7

-- ===== helper.py =====

/-- The media placeholder token. -/
def mediaTok : List Char := "<Media omitted>".data

/-- `helper.filter_media`: drop media placeholders, empty messages, and the
lone "." / "?" messages (`Message` is never NA in a parsed frame, so the
`notna` conjunct of the mask is always true). -/
def filter_media (df : List Record) : List Record :=
  df.filter (fun m =>
    !containsSub mediaTok m.text &&
    !(m.text == []) && !(m.text == ".".data) && !(m.text == "?".data))

/-- Modelled from the external `emoji` library collaborator: membership in
the `EMOJI_DATA` table, restricted to a representative finite set of emoji
characters (the analytics only use membership of individual characters). -/
def isEmojiChar (c : Char) : Bool :=
  c = '😀' || c = '😂' || c = '😍' || c = '❤' || c = '👍' || c = '🎉'

/-- Modelled from the external `urlextract` library collaborator:
`URLExtract().find_urls` returns the URL occurrences inside a message; the
model recognises whitespace-separated tokens with an explicit http(s)
scheme (the claims about URL counting depend only on which messages are
scanned, not on the URL grammar). -/
def find_urls (cs : List Char) : List (List Char) :=
  (pySplitWs cs).filter (fun t =>
    "http://".data.isPrefixOf t || "https://".data.isPrefixOf t)

/-- `helper.fetch_stats`: message/word/media/emoji/URL totals.  The first
four statistics are computed over `subset` (the rows of the selected user),
but the URL loop iterates over the whole `df` parameter, not `subset`. -/
def fetch_stats (selected_user : List Char) (df : List Record) :
    Nat × Nat × Nat × Nat × Nat :=
  let subset := if selected_user = "Overall".data then df
    else df.filter (fun m => m.sender == selected_user)
  let total_messages := subset.length
  let total_media := (subset.filter (fun m => containsSub mediaTok m.text)).length
  let text_df := filter_media subset
  let total_words := (text_df.map (fun m => (pySplitWs m.text).length)).sum
  let total_emojis := (text_df.map (fun m => (m.text.filter isEmojiChar).length)).sum
  let y := (df.map (fun m => find_urls m.text)).flatten
  (total_messages, total_words, total_media, total_emojis, y.length)

/-- Stable insertion step: `a` goes before the first element `b` with
`le a b = true`. -/
def insertSortedBy (le : α → α → Bool) (a : α) : List α → List α
  | [] => [a]
  | b :: bs => if le a b then a :: b :: bs else b :: insertSortedBy le a bs

/-- Insertion sort (stable for the strict-preference reading of `le`). -/
def insertionSort (le : α → α → Bool) (l : List α) : List α :=
  l.foldr (insertSortedBy le) []

/-- Lexicographic comparison of strings by character code (the order pandas
uses to sort string group keys). -/
def lexLt : List Char → List Char → Bool
  | [], [] => false
  | [], _ :: _ => true
  | _ :: _, [] => false
  | a :: as, b :: bs =>
    if a.val < b.val then true
    else if b.val < a.val then false
    else lexLt as bs

/-- `groupby(key).size()` with pandas' default `sort=True`: one row per
distinct key, keys in ascending order, with the multiplicity of the key. -/
def groupCounts (keys : List (List Char)) : List (List Char × Nat) :=
  (insertionSort lexLt keys.dedup).map (fun k => (k, keys.count k))

/-- Descending-by-count order used by `sort_values('count', ascending=False)`
on the small grouped frames (stable: equal counts keep the incoming order,
which after `groupby` is the ascending key order). -/
def countGe (a b : List Char × Nat) : Bool :=
  b.2 ≤ a.2

/-- `helper.messages_per_user`: substantive messages per sender, the grouped
counts sorted descending and truncated to the top 10. -/
def messages_per_user (df : List Record) : List (List Char × Nat) :=
  let text_df := filter_media df
  ((insertionSort countGe (groupCounts (text_df.map (fun m => m.sender))))).take 10

/-- `value_counts()` of the `Sender` column: grouped counts of the full
frame, sorted by count descending. -/
def value_counts (df : List Record) : List (List Char × Nat) :=
  insertionSort countGe (groupCounts (df.map (fun m => m.sender)))

/-- Rounding to two decimal places, the numeric content of the `"%.2f"`
formatting applied to each percentage (ties rounded up; the claims use a
tolerance that covers either tie rule). -/
def roundCent (q : ℚ) : ℚ :=
  (⌊q * 100 + 1 / 2⌋ : ℚ) / 100

/-- `helper.avg_msg_per_user`: per-sender share of the total message count,
as a percentage rounded to two decimals (the trailing `%` of the string
formatting carries no numeric content). -/
def avg_msg_per_user (df : List Record) : List (List Char × ℚ) :=
  let total_messages := df.length
  (value_counts df).map (fun p =>
    (p.1, roundCent ((p.2 : ℚ) / (total_messages : ℚ) * 100)))

/-- Distinct observed values in ascending order (the row index produced by
`pivot`, which sorts the `hour` index). -/
def sortedHours (hs : List Nat) : List Nat :=
  insertionSort (fun a b => a ≤ b) hs.dedup

/-- `helper.activity_heatmap`: rows are the observed hours in ascending
order; columns are the seven weekday categories Monday..Sunday (the
`pd.Categorical` column makes `pivot` emit every category, and `fillna(0)`
zero-fills combinations with no messages); cells count substantive
messages. -/
def activity_heatmap (df : List Record) : List (Nat × List Nat) :=
  let text_df := filter_media df
  let hours := sortedHours (text_df.map (fun m => m.date.hour))
  hours.map (fun h =>
    (h, (List.range 7).map (fun w =>
      (text_df.filter (fun m => m.date.hour == h && weekdayIdx m.date == w)).length)))

/-- Modelled from the external scikit-learn collaborator: the fixed English
stop-word list of `CountVectorizer(stop_words='english')`, restricted to a
representative subset (the claims depend only on tokens being removable,
not on the full 318-word list). -/
def sklearnStop : List (List Char) :=
  ["the".data, "a".data, "an".data, "and".data, "is".data, "to".data,
   "in".data, "it".data, "of".data, "you".data]

/-- A `\w` word character (ASCII model of the unicode word class). -/
def isWordChar (c : Char) : Bool :=
  c.isAlpha || c.isDigit || c = '_'

/-- Helper: maximal runs of word characters, keeping runs of length at
least `lo` (the `CountVectorizer` token pattern `\w\w+` uses `lo = 2`). -/
def wordRunsAux (lo : Nat) : List Char → List Char → List (List Char)
  | [], acc => if lo ≤ acc.length then [acc.reverse] else []
  | c :: cs, acc =>
    if isWordChar c then wordRunsAux lo cs (c :: acc)
    else if lo ≤ acc.length then acc.reverse :: wordRunsAux lo cs []
    else wordRunsAux lo cs []

/-- Tokenisation of `CountVectorizer`: lower-case, then word runs of length
at least two. -/
def cvTokenize (cs : List Char) : List (List Char) :=
  wordRunsAux 2 (lowerList cs) []

/-- `helper.top_n_words`: modelled from `CountVectorizer(max_features=n,
stop_words='english').fit_transform` — tokenise the substantive messages,
drop stop words, build the vocabulary; an empty vocabulary raises
`ValueError` (scikit-learn's "empty vocabulary" error), which in particular
happens whenever the filtered selection is empty.  Otherwise the `n` most
frequent terms are returned with their corpus counts, listed in vocabulary
(alphabetical) order. -/
def top_n_words (df : List Record) (n : Nat) : Except String (List (List Char × Nat)) :=
  let text_df := filter_media df
  let toks := (text_df.map (fun m =>
    (cvTokenize m.text).filter (fun t => !sklearnStop.contains t))).flatten
  let vocab := insertionSort lexLt toks.dedup
  if vocab.isEmpty then
    .error "empty vocabulary; perhaps the documents only contain stop words"
  else
    let chosen := (insertionSort countGe (vocab.map (fun t => (t, toks.count t)))).take n
    .ok (insertionSort (fun a b => lexLt a.1 b.1) chosen)

/-- Word extraction of the external `wordcloud` collaborator's
`process_text` (`\w[\w']*`), modelled as maximal word runs of length at
least one. -/
def wcWords (cs : List Char) : List (List Char) :=
  wordRunsAux 1 cs []

/-- Intersperse a separator character between strings (`' '.join`). -/
def joinWith (sep : Char) : List (List Char) → List Char
  | [] => []
  | [w] => w
  | w :: ws => w ++ sep :: joinWith sep ws

/-- `helper.generate_wordcloud`: modelled from the external `wordcloud`
collaborator — `WordCloud.generate` raises `ValueError` ("We need at least
1 word to plot a word cloud, got 0.") when the joined text contains no
words, which in particular happens whenever the filtered selection is
empty; otherwise the word-frequency map (the core contract) is returned. -/
def generate_wordcloud (df : List Record) : Except String (List (List Char × Nat)) :=
  let text := joinWith ' ' ((filter_media df).map (fun m => m.text))
  let ws := wcWords text
  if ws.isEmpty then
    .error "We need at least 1 word to plot a word cloud, got 0."
  else
    .ok ((insertionSort lexLt ws.dedup).map (fun w => (w, ws.count w)))

/-- Modelled from the external TextBlob collaborator: a fixed sentiment
lexicon scoring some tokens; a message's polarity is the mean over its
scored tokens and `0` when no token is scored (TextBlob's neutral
default). -/
def tokenPolarity (t : List Char) : Option ℚ :=
  if t = "good".data then some (7 / 10)
  else if t = "great".data then some (4 / 5)
  else if t = "bad".data then some (-(7 / 10))
  else if t = "terrible".data then some (-1)
  else none

/-- Polarity of a message body under the modelled lexicon. -/
def polarity (cs : List Char) : ℚ :=
  let scored := (pySplitWs (lowerList cs)).filterMap tokenPolarity
  if scored.isEmpty then 0 else scored.sum / (scored.length : ℚ)

/-- The 7-day resampling bin of a timestamp relative to the origin day `d0`
(pandas' `origin='start_day'`: bins start at midnight of the first day). -/
def binIdx (d0 : Nat) (t : Timestamp) : Nat :=
  (tsDays t - d0) / 7

/-- `helper.sentiment_time_series`: per-message polarity over the
substantive subset, then `resample('7D').mean()` — one row per 7-day bin
from the first observed day through the bin of the last observed day
(resampling is dense), whose value is the mean of the polarities in the
bin, or missing (`none`, pandas `NaN`) for a bin with no messages. -/
def sentiment_time_series (df : List Record) : List (Nat × Option ℚ) :=
  let text_df := filter_media df
  match text_df with
  | [] => []
  | m0 :: rest =>
    let d0 := (rest.map (fun m => tsDays m.date)).foldl min (tsDays m0.date)
    let dmax := (rest.map (fun m => tsDays m.date)).foldl max (tsDays m0.date)
    let nbins := (dmax - d0) / 7 + 1
    (List.range nbins).map (fun k =>
      let vals := (text_df.filter (fun m => binIdx d0 m.date == k)).map
        (fun m => polarity m.text)
      (k, if vals.isEmpty then none else some (vals.sum / (vals.length : ℚ))))

-- ===== synthetic entries in the fixed format (for the round-trip claims) =====

/-- A digit character for a value below ten. -/
def digitChar : Nat → Char
  | 0 => '0' | 1 => '1' | 2 => '2' | 3 => '3' | 4 => '4'
  | 5 => '5' | 6 => '6' | 7 => '7' | 8 => '8' | _ => '9'

/-- Decimal rendering of a number below 100, without padding (the day,
month and hour fields of a transcript line). -/
def numStr (n : Nat) : List Char :=
  if n < 10 then [digitChar n] else [digitChar (n / 10), digitChar (n % 10)]

/-- Two-digit zero-padded rendering (the year and minute fields). -/
def pad2 (n : Nat) : List Char :=
  [digitChar (n / 10), digitChar (n % 10)]

/-- A synthetic transcript entry `<date>, <time> <am|pm> - <sender>: <body>`
with explicit field values; `marker` is the am/pm marker as written. -/
structure Entry where
  day : Nat
  month : Nat
  year2 : Nat
  hour12 : Nat
  minute : Nat
  marker : List Char
  sender : List Char
  body : List Char
deriving DecidableEq

/-- Well-formedness of a synthetic entry: a valid calendar date and clock
time, a two-letter am/pm marker in any letter case, a non-empty sender
without colons, and a non-empty single-line body that is already stripped;
neither sender nor body contains the narrow no-break space that
`preprocess` rewrites. -/
def entryWF (e : Entry) : Bool :=
  1 ≤ e.day && e.day ≤ daysInMonth e.month (century e.year2) &&
  1 ≤ e.month && e.month ≤ 12 && e.year2 ≤ 99 &&
  1 ≤ e.hour12 && e.hour12 ≤ 12 && e.minute ≤ 59 &&
  (lowerList e.marker == "am".data || lowerList e.marker == "pm".data) &&
  !e.sender.isEmpty && !e.sender.contains ':' && !e.sender.contains nnbsp &&
  !e.body.isEmpty && !e.body.contains '\n' && !e.body.contains nnbsp &&
  pyStrip e.body == e.body

/-- The date-time fragment of a rendered entry. -/
def dtChars (e : Entry) : List Char :=
  numStr e.day ++ '/' :: numStr e.month ++ '/' :: pad2 e.year2 ++
    ',' :: ' ' :: numStr e.hour12 ++ ':' :: pad2 e.minute ++ ' ' :: e.marker

/-- One rendered entry line. -/
def renderE (e : Entry) : List Char :=
  dtChars e ++ ' ' :: '-' :: ' ' :: e.sender ++ ':' :: ' ' :: e.body

/-- A rendered transcript: entries joined with single newlines. -/
def renderList : List Entry → List Char
  | [] => []
  | [e] => renderE e
  | e :: es => renderE e ++ '\n' :: renderList es

/-- The raw match the scanner should produce for a rendered entry. -/
def rawOf (e : Entry) : RawMatch :=
  ⟨dtChars e, e.sender, e.body⟩

/-- The timestamp `preprocess` should parse for a synthetic entry. -/
def entryTs (e : Entry) : Timestamp :=
  ⟨century e.year2, e.month, e.day,
   e.hour12 % 12 + (if lowerList e.marker = "pm".data then 12 else 0),
   e.minute⟩

/-- The record `preprocess` should produce for a synthetic entry. -/
def entryRecord (e : Entry) : Record :=
  ⟨entryTs e, e.sender, e.body⟩

/-- The same entry with its am/pm marker lower-cased. -/
def lowerMarker (e : Entry) : Entry :=
  { e with marker := lowerList e.marker }

/-- Condition: the input does not begin with a digit. -/
def headNotDigit : List Char → Prop
  | [] => True
  | c :: _ => c.isDigit = false

/-- The body scan may stop at the end of input or at a lookahead boundary. -/
def bodyEnd (r : List Char) : Prop :=
  r = [] ∨ boundaryHere r = true

-- ===== lemmas: digits and rendering =====

theorem digitChar_isDigit (n : Nat) : (digitChar n).isDigit = true := by
  rcases n with _|_|_|_|_|_|_|_|_|_|n <;> rfl

theorem digitChar_not_space (n : Nat) : isPySpace (digitChar n) = false := by
  rcases n with _|_|_|_|_|_|_|_|_|_|n <;> rfl

theorem digitChar_ne_nnbsp (n : Nat) : digitChar n ≠ nnbsp := by
  rcases n with _|_|_|_|_|_|_|_|_|_|n <;> first
    | decide
    | (show ('9' : Char) ≠ nnbsp; decide)

theorem digitVal_digitChar {n : Nat} (h : n ≤ 9) : digitVal (digitChar n) = n := by
  interval_cases n <;> rfl

theorem numStr_digits (n : Nat) : ∀ c ∈ numStr n, c.isDigit = true := by
  intro c hc
  unfold numStr at hc
  split at hc
  · simp only [List.mem_singleton] at hc
    subst hc; exact digitChar_isDigit _
  · simp only [List.mem_cons, List.mem_singleton, List.not_mem_nil, or_false] at hc
    rcases hc with rfl | rfl <;> exact digitChar_isDigit _

theorem numStr_ne_nnbsp (n : Nat) : ∀ c ∈ numStr n, c ≠ nnbsp := by
  intro c hc
  unfold numStr at hc
  split at hc
  · simp only [List.mem_singleton] at hc
    subst hc; exact digitChar_ne_nnbsp _
  · simp only [List.mem_cons, List.mem_singleton, List.not_mem_nil, or_false] at hc
    rcases hc with rfl | rfl <;> exact digitChar_ne_nnbsp _

theorem numStr_length (n : Nat) :
    1 ≤ (numStr n).length ∧ (numStr n).length ≤ 2 := by
  unfold numStr; split <;> simp

theorem pad2_digits (n : Nat) : ∀ c ∈ pad2 n, c.isDigit = true := by
  intro c hc
  simp only [pad2, List.mem_cons, List.mem_singleton, List.not_mem_nil] at hc
  rcases hc with rfl | rfl | hc
  · exact digitChar_isDigit _
  · exact digitChar_isDigit _
  · cases hc

theorem pad2_ne_nnbsp (n : Nat) : ∀ c ∈ pad2 n, c ≠ nnbsp := by
  intro c hc
  simp only [pad2, List.mem_cons, List.mem_singleton, List.not_mem_nil] at hc
  rcases hc with rfl | rfl | hc
  · exact digitChar_ne_nnbsp _
  · exact digitChar_ne_nnbsp _
  · cases hc

theorem pad2_length (n : Nat) : (pad2 n).length = 2 := rfl

theorem digitsVal_numStr {n : Nat} (h : n ≤ 99) : digitsVal (numStr n) = n := by
  unfold numStr
  split
  · next hlt =>
    simp [digitsVal, digitVal_digitChar (by omega : n ≤ 9)]
  · next hge =>
    have h1 : n / 10 ≤ 9 := by omega
    have h2 : n % 10 ≤ 9 := by omega
    simp [digitsVal, digitVal_digitChar h1, digitVal_digitChar h2]
    omega

theorem digitsVal_pad2 {n : Nat} (h : n ≤ 99) : digitsVal (pad2 n) = n := by
  have h1 : n / 10 ≤ 9 := by omega
  have h2 : n % 10 ≤ 9 := by omega
  simp [pad2, digitsVal, digitVal_digitChar h1, digitVal_digitChar h2]
  omega

-- ===== lemmas: the scanner on structured input =====

theorem digitRun_append {ds r : List Char} (hds : ∀ c ∈ ds, c.isDigit = true)
    (hr : headNotDigit r) : digitRun (ds ++ r) = (ds, r) := by
  induction ds with
  | nil =>
    cases r with
    | nil => rfl
    | cons c t =>
      have hc : c.isDigit = false := hr
      simp [digitRun, hc]
  | cons c ds ih =>
    have hc := hds c (List.mem_cons_self _ _)
    have ih' := ih (fun x hx => hds x (List.mem_cons_of_mem _ hx))
    simp [digitRun, hc, ih']

theorem matchDigits_append {ds r : List Char} {lo hi : Nat}
    (hds : ∀ c ∈ ds, c.isDigit = true) (hr : headNotDigit r)
    (hlo : lo ≤ ds.length) (hhi : ds.length ≤ hi) :
    matchDigits lo hi (ds ++ r) = some (ds, r) := by
  simp [matchDigits, digitRun_append hds hr, hlo, hhi]

theorem matchLit_cons (d : Char) (r : List Char) : matchLit d (d :: r) = some r := by
  simp [matchLit]

theorem matchSpace_cons {c : Char} (r : List Char) (h : isPySpace c = true) :
    matchSpace (c :: r) = some (c, r) := by
  simp [matchSpace, h]

theorem matchAmPm_cons {c1 c2 : Char} (r : List Char)
    (h1 : c1.toLower = 'a' ∨ c1.toLower = 'p') (h2 : c2.toLower = 'm') :
    matchAmPm (c1 :: c2 :: r) = some ([c1, c2], r) := by
  simp [matchAmPm, h1, h2]

theorem marker_shape {m : List Char}
    (h : lowerList m = ['a', 'm'] ∨ lowerList m = ['p', 'm']) :
    ∃ m1 m2, m = [m1, m2] ∧ (m1.toLower = 'a' ∨ m1.toLower = 'p') ∧
      m2.toLower = 'm' := by
  match m with
  | [] => simp [lowerList] at h
  | [c1] => simp [lowerList] at h
  | c1 :: c2 :: c3 :: t => simp [lowerList] at h
  | [c1, c2] =>
    refine ⟨c1, c2, rfl, ?_, ?_⟩ <;> simp [lowerList] at h <;>
      rcases h with ⟨h1, h2⟩ | ⟨h1, h2⟩ <;> simp [h1, h2]

theorem entryWF_props {e : Entry} (h : entryWF e = true) :
    1 ≤ e.day ∧ e.day ≤ daysInMonth e.month (century e.year2) ∧
    1 ≤ e.month ∧ e.month ≤ 12 ∧ e.year2 ≤ 99 ∧
    1 ≤ e.hour12 ∧ e.hour12 ≤ 12 ∧ e.minute ≤ 59 ∧
    (lowerList e.marker = ['a', 'm'] ∨ lowerList e.marker = ['p', 'm']) ∧
    e.sender ≠ [] ∧ ':' ∉ e.sender ∧ nnbsp ∉ e.sender ∧
    e.body ≠ [] ∧ '\n' ∉ e.body ∧ nnbsp ∉ e.body ∧ pyStrip e.body = e.body := by
  simp only [entryWF, Bool.and_eq_true, decide_eq_true_eq, Bool.or_eq_true,
    beq_iff_eq] at h
  obtain ⟨⟨⟨⟨⟨⟨⟨⟨⟨⟨⟨⟨⟨⟨⟨h1, h2⟩, h3⟩, h4⟩, h5⟩, h6⟩, h7⟩, h8⟩, h9⟩, h10⟩,
    h11⟩, h12⟩, h13⟩, h14⟩, h15⟩, h16⟩ := h
  refine ⟨h1, h2, h3, h4, h5, h6, h7, h8, ?_, by simpa using h10,
    by simpa using h11, by simpa using h12, by simpa using h13,
    by simpa using h14, by simpa using h15, h16⟩
  rcases h9 with h9 | h9
  · exact Or.inl (h9.trans (by rfl))
  · exact Or.inr (h9.trans (by rfl))

theorem matchDT_dtChars {e : Entry} (hwf : entryWF e = true) (t : List Char) :
    matchDT (dtChars e ++ t) = some (dtChars e, t) := by
  obtain ⟨_, _, _, _, _, _, _, _, hmk, _⟩ := entryWF_props hwf
  obtain ⟨m1, m2, hm, hm1, hm2⟩ := marker_shape hmk
  have mdDay : ∀ u, matchDigits 1 2 (numStr e.day ++ '/' :: u) =
      some (numStr e.day, '/' :: u) := fun u =>
    matchDigits_append (numStr_digits _) rfl (numStr_length _).1 (numStr_length _).2
  have mdMo : ∀ u, matchDigits 1 2 (numStr e.month ++ '/' :: u) =
      some (numStr e.month, '/' :: u) := fun u =>
    matchDigits_append (numStr_digits _) rfl (numStr_length _).1 (numStr_length _).2
  have mdY : ∀ u, matchDigits 2 4 (pad2 e.year2 ++ ',' :: u) =
      some (pad2 e.year2, ',' :: u) := fun u =>
    matchDigits_append (pad2_digits _) rfl (by simp [pad2_length]) (by simp [pad2_length])
  have mdH : ∀ u, matchDigits 1 2 (numStr e.hour12 ++ ':' :: u) =
      some (numStr e.hour12, ':' :: u) := fun u =>
    matchDigits_append (numStr_digits _) rfl (numStr_length _).1 (numStr_length _).2
  have mdMi : ∀ u, matchDigits 2 2 (pad2 e.minute ++ ' ' :: u) =
      some (pad2 e.minute, ' ' :: u) := fun u =>
    matchDigits_append (pad2_digits _) rfl (by simp [pad2_length]) (by simp [pad2_length])
  have sp : ∀ u : List Char, matchSpace (' ' :: u) = some (' ', u) := fun u =>
    matchSpace_cons u rfl
  have am : ∀ u : List Char, matchAmPm (m1 :: m2 :: u) = some ([m1, m2], u) := fun u =>
    matchAmPm_cons u hm1 hm2
  have bnd : ∀ {α β : Type} (a : α) (f : α → Option β), (some a >>= f) = f a :=
    fun a f => rfl
  simp only [dtChars, hm, List.append_assoc, List.cons_append, List.nil_append]
  simp only [matchDT, mdDay, matchLit_cons, mdMo, mdY, sp, mdH, mdMi, am,
    bnd, List.append_assoc, List.cons_append, List.nil_append]

theorem spanNonColon_append {s : List Char} (hs : ':' ∉ s) (r : List Char) :
    spanNonColon (s ++ ':' :: r) = (s, ':' :: r) := by
  induction s with
  | nil => simp [spanNonColon]
  | cons c s ih =>
    have hc : c ≠ ':' := fun h => hs (h ▸ List.mem_cons_self _ _)
    have ih' := ih (fun h => hs (List.mem_cons_of_mem _ h))
    simp [spanNonColon, hc, ih']

theorem matchSender_append {s : List Char} (hne : s ≠ []) (hs : ':' ∉ s)
    (r : List Char) : matchSender (s ++ ':' :: r) = some (s, r) := by
  simp [matchSender, spanNonColon_append hs, List.isEmpty_iff, hne]

theorem bodySplit_append {b : List Char} (hb : '\n' ∉ b) {r : List Char}
    (hr : bodyEnd r) : bodySplit (b ++ r) = (b, r) := by
  induction b with
  | nil =>
    rcases hr with rfl | hr
    · rfl
    · cases r with
      | nil => rfl
      | cons c t => simp [bodySplit, hr]
  | cons c b ih =>
    have hc : c ≠ '\n' := fun h => hb (h ▸ List.mem_cons_self _ _)
    have hbd : boundaryHere (c :: (b ++ r)) = false := by
      simp only [boundaryHere]
      split
      · next heq =>
        injection heq with h1 h2
        exact absurd h1 hc
      · rfl
    have ih' := ih (fun h => hb (List.mem_cons_of_mem _ h))
    simp [bodySplit, hbd, ih']

theorem matchBody_append {b : List Char} (hne : b ≠ []) (hb : '\n' ∉ b)
    {r : List Char} (hr : bodyEnd r) : matchBody (b ++ r) = some (b, r) := by
  cases b with
  | nil => exact absurd rfl hne
  | cons c b =>
    have hb' : '\n' ∉ b := fun h => hb (List.mem_cons_of_mem _ h)
    simp [matchBody, bodySplit_append hb' hr]

theorem matchEntry_render {e : Entry} (hwf : entryWF e = true) {r : List Char}
    (hr : bodyEnd r) : matchEntry (renderE e ++ r) = some (rawOf e, r) := by
  obtain ⟨_, _, _, _, _, _, _, _, _, hsne, hscol, _, hbne, hbnl, _, _⟩ :=
    entryWF_props hwf
  have bnd : ∀ {α β : Type} (a : α) (f : α → Option β), (some a >>= f) = f a :=
    fun a f => rfl
  have sp : ∀ u : List Char, matchSpace (' ' :: u) = some (' ', u) := fun u =>
    matchSpace_cons u rfl
  have snd : ∀ u, matchSender (e.sender ++ ':' :: u) = some (e.sender, u) :=
    fun u => matchSender_append hsne hscol u
  have bd : matchBody (e.body ++ r) = some (e.body, r) :=
    matchBody_append hbne hbnl hr
  simp only [renderE, List.append_assoc, List.cons_append, List.nil_append]
  simp only [matchEntry, matchDT_dtChars hwf, bnd, sp, matchLit_cons, snd, bd,
    rawOf]

theorem matchDatePrefix_renderE {e : Entry} (hwf : entryWF e = true)
    (u : List Char) : (matchDatePrefix (renderE e ++ u)).isSome = true := by
  have bnd : ∀ {α β : Type} (a : α) (f : α → Option β), (some a >>= f) = f a :=
    fun a f => rfl
  have mdDay : ∀ v, matchDigits 1 2 (numStr e.day ++ '/' :: v) =
      some (numStr e.day, '/' :: v) := fun v =>
    matchDigits_append (numStr_digits _) rfl (numStr_length _).1 (numStr_length _).2
  have mdMo : ∀ v, matchDigits 1 2 (numStr e.month ++ '/' :: v) =
      some (numStr e.month, '/' :: v) := fun v =>
    matchDigits_append (numStr_digits _) rfl (numStr_length _).1 (numStr_length _).2
  have mdY : ∀ v, matchDigits 2 4 (pad2 e.year2 ++ ',' :: v) =
      some (pad2 e.year2, ',' :: v) := fun v =>
    matchDigits_append (pad2_digits _) rfl (by simp [pad2_length]) (by simp [pad2_length])
  simp only [renderE, dtChars, List.append_assoc, List.cons_append, List.nil_append]
  simp only [matchDatePrefix, mdDay, matchLit_cons, mdMo, mdY, bnd,
    Option.isSome_some]

theorem matchEntry_nl (t : List Char) : matchEntry ('\n' :: t) = none := by
  have hd : ('\n' : Char).isDigit = false := rfl
  have h1 : matchDigits 1 2 ('\n' :: t) = none := by
    simp [matchDigits, digitRun, hd]
  have h2 : matchDT ('\n' :: t) = none := by
    simp only [matchDT, h1]
    rfl
  simp only [matchEntry, h2]
  rfl

-- ===== length lemmas (fuel adequacy of the scanner) =====

theorem digitRun_parts (cs : List Char) : (digitRun cs).1 ++ (digitRun cs).2 = cs := by
  induction cs with
  | nil => rfl
  | cons c t ih =>
    by_cases h : c.isDigit <;> simp [digitRun, h, ih]

theorem matchDigits_length {lo hi : Nat} {cs ds r : List Char}
    (h : matchDigits lo hi cs = some (ds, r)) : r.length ≤ cs.length := by
  simp only [matchDigits] at h
  split at h
  · injection h with h'
    injection h' with h1 h2
    subst h2
    have := congrArg List.length (digitRun_parts cs)
    simp only [List.length_append] at this
    omega
  · cases h

theorem matchLit_length {d : Char} {cs r : List Char} (h : matchLit d cs = some r) :
    r.length < cs.length := by
  match cs with
  | [] => cases h
  | c :: t =>
    simp only [matchLit] at h
    split at h
    · injection h with h'
      subst h'
      simp
    · cases h

theorem matchSpace_length {cs r : List Char} {c : Char}
    (h : matchSpace cs = some (c, r)) : r.length < cs.length := by
  match cs with
  | [] => cases h
  | c0 :: t =>
    simp only [matchSpace] at h
    split at h
    · injection h with h'
      injection h' with h1 h2
      subst h2
      simp
    · cases h

theorem matchAmPm_length {cs ap r : List Char} (h : matchAmPm cs = some (ap, r)) :
    r.length < cs.length := by
  match cs with
  | [] => cases h
  | [c] => cases h
  | c1 :: c2 :: t =>
    simp only [matchAmPm] at h
    split at h
    · injection h with h'
      injection h' with h1 h2
      subst h2
      simp only [List.length_cons]
      omega
    · cases h

theorem spanNonColon_parts (cs : List Char) :
    (spanNonColon cs).1 ++ (spanNonColon cs).2 = cs := by
  induction cs with
  | nil => rfl
  | cons c t ih =>
    by_cases h : c = ':' <;> simp [spanNonColon, h, ih]

theorem matchSender_length {cs s r : List Char} (h : matchSender cs = some (s, r)) :
    r.length < cs.length := by
  simp only [matchSender] at h
  split at h
  · next heq =>
    split at h
    · cases h
    · injection h with h'
      injection h' with h1 h2
      subst h2
      have := congrArg List.length (spanNonColon_parts cs)
      rw [heq] at this
      simp only [List.length_append, List.length_cons] at this
      omega
  · cases h

theorem bodySplit_parts (cs : List Char) : (bodySplit cs).1 ++ (bodySplit cs).2 = cs := by
  induction cs with
  | nil => rfl
  | cons c t ih =>
    by_cases h : boundaryHere (c :: t) = true <;> simp [bodySplit, h, ih]

theorem matchBody_length {cs b r : List Char} (h : matchBody cs = some (b, r)) :
    r.length < cs.length := by
  match cs with
  | [] => cases h
  | c :: t =>
    simp only [matchBody] at h
    injection h with h'
    injection h' with h1 h2
    subst h2
    have := congrArg List.length (bodySplit_parts t)
    simp only [List.length_append] at this
    simp only [List.length_cons]
    omega

theorem matchDT_length {cs g r : List Char} (h : matchDT cs = some (g, r)) :
    r.length < cs.length := by
  simp only [matchDT, bind, Option.bind_eq_some] at h
  obtain ⟨⟨d1, r1⟩, h1, ⟨r2, h2, ⟨⟨d2, r3⟩, h3, ⟨r4, h4, ⟨⟨d3, r5⟩, h5,
    ⟨r6, h6, ⟨⟨s1, r7⟩, h7, ⟨⟨d4, r8⟩, h8, ⟨r9, h9, ⟨⟨d5, r10⟩, h10,
    ⟨⟨s2, r11⟩, h11, ⟨⟨ap, r12⟩, h12, hfin⟩⟩⟩⟩⟩⟩⟩⟩⟩⟩⟩⟩ := h
  dsimp only at *
  injection hfin with hfin'
  injection hfin' with hg hr
  subst hr
  have l1 := matchDigits_length h1
  have l2 := matchLit_length h2
  have l3 := matchDigits_length h3
  have l4 := matchLit_length h4
  have l5 := matchDigits_length h5
  have l6 := matchLit_length h6
  have l7 := matchSpace_length h7
  have l8 := matchDigits_length h8
  have l9 := matchLit_length h9
  have l10 := matchDigits_length h10
  have l11 := matchSpace_length h11
  have l12 := matchAmPm_length h12
  omega

theorem matchEntry_length {cs rest : List Char} {m : RawMatch}
    (h : matchEntry cs = some (m, rest)) : rest.length < cs.length := by
  simp only [matchEntry, bind, Option.bind_eq_some] at h
  obtain ⟨⟨g1, r1⟩, h1, ⟨⟨s1, r2⟩, h2, ⟨r3, h3, ⟨⟨s2, r4⟩, h4, ⟨⟨g2, r5⟩, h5,
    ⟨⟨s3, r6⟩, h6, ⟨⟨g3, r7⟩, h7, hfin⟩⟩⟩⟩⟩⟩⟩ := h
  dsimp only at *
  injection hfin with hfin'
  injection hfin' with hm hr
  subst hr
  have l1 := matchDT_length h1
  have l2 := matchSpace_length h2
  have l3 := matchLit_length h3
  have l4 := matchSpace_length h4
  have l5 := matchSender_length h5
  have l6 := matchSpace_length h6
  have l7 := matchBody_length h7
  omega

-- ===== scanner correctness on rendered transcripts =====

theorem matchEntry_nil : matchEntry [] = none := rfl

theorem scanAux_congr : ∀ {n m : Nat} {cs : List Char},
    cs.length ≤ n → cs.length ≤ m → scanAux n cs = scanAux m cs := by
  intro n
  induction n with
  | zero =>
    intro m cs hn hm
    have : cs = [] := List.length_eq_zero.mp (Nat.le_zero.mp hn)
    subst this
    cases m with
    | zero => rfl
    | succ m => simp [scanAux, matchEntry_nil]
  | succ n ih =>
    intro m cs hn hm
    cases m with
    | zero =>
      have : cs = [] := List.length_eq_zero.mp (Nat.le_zero.mp hm)
      subst this
      simp [scanAux, matchEntry_nil]
    | succ m =>
      cases hme : matchEntry cs with
      | some p =>
        obtain ⟨mm, rest⟩ := p
        have hlt := matchEntry_length hme
        simp only [scanAux, hme]
        exact congrArg (mm :: ·) (ih (by omega) (by omega))
      | none =>
        cases cs with
        | nil => rfl
        | cons c t =>
          simp only [scanAux, hme]
          exact ih (by simpa using hn) (by simpa using hm)

theorem scanMatches_eq_cons {cs rest : List Char} {m : RawMatch}
    (h : matchEntry cs = some (m, rest)) :
    scanMatches cs = m :: scanMatches rest := by
  have hlt := matchEntry_length h
  unfold scanMatches
  cases hcs : cs.length with
  | zero =>
    have : cs = [] := List.length_eq_zero.mp hcs
    subst this
    rw [matchEntry_nil] at h
    cases h
  | succ n =>
    simp only [scanAux, h]
    exact congrArg (m :: ·) (scanAux_congr (by omega) (by omega))

theorem scanMatches_nl (t : List Char) :
    scanMatches ('\n' :: t) = scanMatches t := by
  unfold scanMatches
  simp only [List.length_cons, scanAux, matchEntry_nl]

theorem renderE_ne_nil (e : Entry) : renderE e ≠ [] := by
  unfold renderE dtChars numStr
  split <;> simp

theorem renderList_shape (e : Entry) (es : List Entry) :
    (es = [] ∧ renderList (e :: es) = renderE e) ∨
    (es ≠ [] ∧ renderList (e :: es) = renderE e ++ '\n' :: renderList es) := by
  cases es with
  | nil => exact Or.inl ⟨rfl, rfl⟩
  | cons e2 es2 => exact Or.inr ⟨by simp, by simp [renderList]⟩

theorem renderList_cons_decomp (e2 : Entry) (es3 : List Entry) :
    ∃ v, renderList (e2 :: es3) = renderE e2 ++ v := by
  rcases renderList_shape e2 es3 with ⟨_, h⟩ | ⟨_, h⟩
  · exact ⟨[], by simp [h]⟩
  · exact ⟨_, h⟩

theorem scanMatches_renderList {es : List Entry}
    (h : ∀ e ∈ es, entryWF e = true) :
    scanMatches (renderList es) = es.map rawOf := by
  induction es with
  | nil => rfl
  | cons e es ih =>
    have hwf : entryWF e = true := h e (List.mem_cons_self _ _)
    have htail : ∀ x ∈ es, entryWF x = true := fun x hx =>
      h x (List.mem_cons_of_mem _ hx)
    rcases renderList_shape e es with ⟨hnil, hu⟩ | ⟨hne, hu⟩
    · subst hnil
      rw [hu, show renderE e = renderE e ++ [] from (List.append_nil _).symm,
        scanMatches_eq_cons (matchEntry_render hwf (Or.inl rfl))]
      rfl
    · have hboundary : boundaryHere ('\n' :: renderList es) = true := by
        cases es with
        | nil => exact absurd rfl hne
        | cons e2 es3 =>
          obtain ⟨v, hv⟩ := renderList_cons_decomp e2 es3
          have hwf2 : entryWF e2 = true := htail e2 (List.mem_cons_self _ _)
          simp only [boundaryHere, hv]
          exact matchDatePrefix_renderE hwf2 v
      rw [hu, scanMatches_eq_cons (matchEntry_render hwf (Or.inr hboundary)),
        scanMatches_nl, ih htail]
      rfl

theorem daysInMonth_le (mo y : Nat) : daysInMonth mo y ≤ 31 := by
  unfold daysInMonth
  split
  · split <;> omega
  · split <;> omega

theorem not_space_of_toLower {c : Char} (h : c.toLower = 'a' ∨ c.toLower = 'p') :
    isPySpace c = false := by
  by_contra hc
  simp only [Bool.not_eq_false, isPySpace, Bool.or_eq_true, decide_eq_true_eq] at hc
  rcases hc with ((((rfl | rfl) | rfl) | rfl) | rfl) | rfl <;>
    rcases h with h | h <;> exact absurd h (by decide)

theorem parseDT_dtChars {e : Entry} (hwf : entryWF e = true) :
    parseDT (dtChars e) = some (entryTs e) := by
  obtain ⟨h1, h2, h3, h4, h5, h6, h7, h8, hmk, _⟩ := entryWF_props hwf
  obtain ⟨m1, m2, hm, hm1, hm2⟩ := marker_shape hmk
  have hd99 : e.day ≤ 99 := le_trans h2 (le_trans (daysInMonth_le _ _) (by omega))
  have hmo99 : e.month ≤ 99 := by omega
  have hh99 : e.hour12 ≤ 99 := by omega
  have hmi99 : e.minute ≤ 99 := by omega
  have bnd : ∀ {α β : Type} (a : α) (f : α → Option β), (some a >>= f) = f a :=
    fun a f => rfl
  have mdDay : ∀ u, matchDigits 1 2 (numStr e.day ++ '/' :: u) =
      some (numStr e.day, '/' :: u) := fun u =>
    matchDigits_append (numStr_digits _) rfl (numStr_length _).1 (numStr_length _).2
  have mdMo : ∀ u, matchDigits 1 2 (numStr e.month ++ '/' :: u) =
      some (numStr e.month, '/' :: u) := fun u =>
    matchDigits_append (numStr_digits _) rfl (numStr_length _).1 (numStr_length _).2
  have mdY : ∀ u, matchDigits 2 2 (pad2 e.year2 ++ ',' :: u) =
      some (pad2 e.year2, ',' :: u) := fun u =>
    matchDigits_append (pad2_digits _) rfl (by simp [pad2_length]) (by simp [pad2_length])
  have mdH : ∀ u, matchDigits 1 2 (numStr e.hour12 ++ ':' :: u) =
      some (numStr e.hour12, ':' :: u) := fun u =>
    matchDigits_append (numStr_digits _) rfl (numStr_length _).1 (numStr_length _).2
  have mdMi : ∀ u, matchDigits 1 2 (pad2 e.minute ++ ' ' :: u) =
      some (pad2 e.minute, ' ' :: u) := fun u =>
    matchDigits_append (pad2_digits _) rfl (by simp [pad2_length]) (by simp [pad2_length])
  have sppNum : ∀ n (v : List Char),
      matchSpacePlus (' ' :: (numStr n ++ v)) = some (numStr n ++ v) := by
    intro n v
    show (if isPySpace ' ' then some ((numStr n ++ v).dropWhile isPySpace)
      else none) = some (numStr n ++ v)
    rw [if_pos (show isPySpace ' ' = true from rfl)]
    congr 1
    unfold numStr
    split <;> simp [List.dropWhile_cons, digitChar_not_space]
  have hm1ns : isPySpace m1 = false := not_space_of_toLower hm1
  have sppM : ∀ u : List Char,
      matchSpacePlus (' ' :: m1 :: u) = some (m1 :: u) := by
    intro u
    show (if isPySpace ' ' then some ((m1 :: u).dropWhile isPySpace)
      else none) = some (m1 :: u)
    rw [if_pos (show isPySpace ' ' = true from rfl)]
    simp [List.dropWhile_cons, hm1ns]
  have am : ∀ u : List Char, matchAmPm (m1 :: m2 :: u) = some ([m1, m2], u) :=
    fun u => matchAmPm_cons u hm1 hm2
  simp only [dtChars, hm, List.append_assoc, List.cons_append, List.nil_append]
  simp only [parseDT, mdDay, matchLit_cons, mdMo, mdY, sppNum, mdH, mdMi, sppM,
    am, bnd]
  simp only [validateDT, digitsVal_numStr hd99, digitsVal_numStr hmo99,
    digitsVal_pad2 h5, digitsVal_numStr hh99, digitsVal_pad2 hmi99]
  rw [if_pos ⟨trivial, h1, h3, h4, h2, h6, h7, h8⟩]
  simp [entryTs, hm]

theorem splitFirstSep_round {s : List Char} (hs : ':' ∉ s) (b : List Char) :
    splitFirstSep (s ++ ':' :: ' ' :: b) = some (s, b) := by
  induction s with
  | nil => simp [splitFirstSep]
  | cons c s ih =>
    have hc : c ≠ ':' := fun h => hs (h ▸ List.mem_cons_self _ _)
    have ih' := ih (fun h => hs (List.mem_cons_of_mem _ h))
    cases s with
    | nil =>
      simp only [List.nil_append] at ih' ⊢
      simp [splitFirstSep, hc, ih']
    | cons c2 s2 =>
      simp only [List.cons_append] at ih' ⊢
      simp [splitFirstSep, hc, ih']

theorem splitSenderBody_round {s : List Char} (hs : ':' ∉ s) (b : List Char) :
    splitSenderBody (s ++ ':' :: ' ' :: b) = (s, b) := by
  simp [splitSenderBody, splitFirstSep_round hs b]

theorem userMessage_rawOf {e : Entry} (hwf : entryWF e = true) :
    userMessage (rawOf e) = e.sender ++ ':' :: ' ' :: e.body := by
  obtain ⟨_, _, _, _, _, _, _, _, _, _, _, _, _, _, _, hstrip⟩ := entryWF_props hwf
  simp [userMessage, rawOf, sepTok, hstrip]

theorem normalizeNnbsp_id {cs : List Char} (h : ∀ c ∈ cs, c ≠ nnbsp) :
    normalizeNnbsp cs = cs := by
  induction cs with
  | nil => rfl
  | cons c t ih =>
    have hc : c ≠ nnbsp := h c (List.mem_cons_self _ _)
    have ih' := ih (fun x hx => h x (List.mem_cons_of_mem _ hx))
    simp [normalizeNnbsp, hc] at ih' ⊢
    exact ih'

theorem marker_char_ne_nnbsp {c : Char}
    (h : c.toLower = 'a' ∨ c.toLower = 'p' ∨ c.toLower = 'm') : c ≠ nnbsp := by
  intro hEq
  subst hEq
  rcases h with h | h | h <;> exact absurd h (by decide)

theorem nnbsp_not_mem_numStr (n : Nat) : nnbsp ∉ numStr n :=
  fun h => numStr_ne_nnbsp n nnbsp h rfl

theorem nnbsp_not_mem_pad2 (n : Nat) : nnbsp ∉ pad2 n :=
  fun h => pad2_ne_nnbsp n nnbsp h rfl

theorem renderE_chars {e : Entry} (hwf : entryWF e = true) :
    ∀ c ∈ renderE e, c ≠ nnbsp := by
  obtain ⟨_, _, _, _, _, _, _, _, hmk, _, _, hsnn, _, _, hbnn, _⟩ :=
    entryWF_props hwf
  obtain ⟨m1, m2, hm, hm1, hm2⟩ := marker_shape hmk
  have hnm1 : ¬(nnbsp = m1) := by
    intro h
    rw [← h] at hm1
    rcases hm1 with h1 | h1 <;> exact absurd h1 (by decide)
  have hnm2 : ¬(nnbsp = m2) := by
    intro h
    rw [← h] at hm2
    exact absurd hm2 (by decide)
  have l1 : ¬(nnbsp = '/') := by decide
  have l2 : ¬(nnbsp = ',') := by decide
  have l3 : ¬(nnbsp = ' ') := by decide
  have l4 : ¬(nnbsp = ':') := by decide
  have l5 : ¬(nnbsp = '-') := by decide
  intro c hc hEq
  subst hEq
  simp only [renderE, dtChars, hm, List.mem_append, List.mem_cons,
    List.not_mem_nil, or_false, nnbsp_not_mem_numStr, nnbsp_not_mem_pad2,
    hsnn, hbnn, hnm1, hnm2, l1, l2, l3, l4, l5, false_or, or_false] at hc

theorem renderList_chars {es : List Entry} (h : ∀ e ∈ es, entryWF e = true) :
    ∀ c ∈ renderList es, c ≠ nnbsp := by
  induction es with
  | nil => intro c hc; cases hc
  | cons e es ih =>
    have hwf := h e (List.mem_cons_self _ _)
    have htail := ih (fun x hx => h x (List.mem_cons_of_mem _ hx))
    intro c hc
    rcases renderList_shape e es with ⟨hnil, hu⟩ | ⟨hne, hu⟩
    · rw [hu] at hc
      exact renderE_chars hwf c hc
    · rw [hu] at hc
      rcases List.mem_append.mp hc with h1 | h1
      · exact renderE_chars hwf c h1
      · rcases List.mem_cons.mp h1 with rfl | h1
        · decide
        · exact htail c h1

theorem mapM_parseDT {es : List Entry} (h : ∀ e ∈ es, entryWF e = true) :
    (es.map rawOf).mapM (fun m => parseDT m.g1) = some (es.map entryTs) := by
  induction es with
  | nil => rfl
  | cons e es ih =>
    have hwf := h e (List.mem_cons_self _ _)
    have htail := ih (fun x hx => h x (List.mem_cons_of_mem _ hx))
    simp only [List.map_cons, List.mapM_cons, rawOf, parseDT_dtChars hwf, htail,
      Option.pure_def, Option.bind_eq_bind, Option.some_bind]

theorem preprocess_renderList {es : List Entry} (h : ∀ e ∈ es, entryWF e = true) :
    preprocess (renderList es) = .ok (es.map entryRecord) := by
  simp only [preprocess, normalizeNnbsp_id (renderList_chars h),
    scanMatches_renderList h, mapM_parseDT h]
  have : ∀ (fs : List Entry), (∀ e ∈ fs, entryWF e = true) →
      ((fs.map rawOf).zip (fs.map entryTs)).map (fun p =>
        let sb := splitSenderBody (userMessage p.1)
        (⟨p.2, sb.1, sb.2⟩ : Record)) = fs.map entryRecord := by
    intro fs hfs
    induction fs with
    | nil => rfl
    | cons e es2 ih =>
      have hwf := hfs e (List.mem_cons_self _ _)
      obtain ⟨_, _, _, _, _, _, _, _, _, _, hscol, _, _, _, _, _⟩ :=
        entryWF_props hwf
      have hsb : splitSenderBody (userMessage (rawOf e)) = (e.sender, e.body) := by
        rw [userMessage_rawOf hwf]
        exact splitSenderBody_round hscol _
      simp only [List.map_cons, List.zip_cons_cons, List.map_cons, hsb]
      exact congrArg (_ :: ·) (ih (fun x hx => hfs x (List.mem_cons_of_mem _ hx)))
  rw [this es h]

-- ===== lemmas: the sender/body split =====

theorem sepTok_isPrefixOf_false {c1 c2 : Char} (h : ¬(c1 = ':' ∧ c2 = ' '))
    (r : List Char) : sepTok.isPrefixOf (c1 :: c2 :: r) = false := by
  rcases Decidable.not_and_iff_or_not.mp h with hc | hc
  · have hb : (':' == c1) = false := beq_eq_false_iff_ne.mpr (fun he => hc he.symm)
    simp [sepTok, List.isPrefixOf, hb]
  · have hb : (' ' == c2) = false := beq_eq_false_iff_ne.mpr (fun he => hc he.symm)
    simp [sepTok, List.isPrefixOf, hb]

theorem splitFirstSep_isSome (cs : List Char) :
    (splitFirstSep cs).isSome = containsSub sepTok cs := by
  induction cs with
  | nil => rfl
  | cons c1 t ih =>
    cases t with
    | nil => simp [splitFirstSep, containsSub, sepTok, List.isPrefixOf]
    | cons c2 r =>
      by_cases h : c1 = ':' ∧ c2 = ' '
      · obtain ⟨rfl, rfl⟩ := h
        simp [splitFirstSep, containsSub, sepTok, List.isPrefixOf]
      · have hpre := sepTok_isPrefixOf_false h r
        cases hrec : splitFirstSep (c2 :: r) with
        | none =>
          rw [hrec] at ih
          simp only [splitFirstSep, if_neg h, hrec]
          have hG : containsSub sepTok (c1 :: c2 :: r) =
              (sepTok.isPrefixOf (c1 :: c2 :: r) || containsSub sepTok (c2 :: r)) := rfl
          rw [hG, hpre, ← ih]
          rfl
        | some p =>
          rw [hrec] at ih
          simp only [splitFirstSep, if_neg h, hrec]
          have hG : containsSub sepTok (c1 :: c2 :: r) =
              (sepTok.isPrefixOf (c1 :: c2 :: r) || containsSub sepTok (c2 :: r)) := rfl
          rw [hG, hpre, ← ih]
          rfl

theorem splitFirstSep_spec {cs s b : List Char}
    (h : splitFirstSep cs = some (s, b)) :
    cs = s ++ ':' :: ' ' :: b ∧ containsSub sepTok s = false := by
  induction cs generalizing s b with
  | nil => cases h
  | cons c1 t ih =>
    cases t with
    | nil => cases h
    | cons c2 r =>
      by_cases hc : c1 = ':' ∧ c2 = ' '
      · obtain ⟨rfl, rfl⟩ := hc
        rw [splitFirstSep, if_pos ⟨rfl, rfl⟩] at h
        injection h with h'
        injection h' with h1 h2
        subst h1
        subst h2
        exact ⟨rfl, rfl⟩
      · rw [splitFirstSep, if_neg hc] at h
        cases hrec : splitFirstSep (c2 :: r) with
        | none => rw [hrec] at h; cases h
        | some p =>
          rw [hrec] at h
          injection h with h'
          injection h' with h1 h2
          obtain ⟨hp1, hp2⟩ := ih hrec
          subst h2
          have hs : s = c1 :: p.1 := h1.symm
          subst hs
          refine ⟨by simp [hp1], ?_⟩
          have hpre : sepTok.isPrefixOf (c1 :: p.1) = false := by
            cases hq : p.1 with
            | nil => simp [sepTok, List.isPrefixOf]
            | cons q1 q2 =>
              rw [hq] at hp1
              have hq1 : c2 = q1 := by
                have := hp1
                simp only [List.cons_append] at this
                exact (List.cons.injEq _ _ _ _ ▸ this).1
              exact sepTok_isPrefixOf_false (fun hand => hc ⟨hand.1, hq1 ▸ hand.2⟩) q2
          simp [containsSub, hpre, hp2]

theorem splitSenderBody_no_sep {cs : List Char}
    (h : containsSub sepTok cs = false) :
    splitSenderBody cs = ("group_notification".data, cs) := by
  have : splitFirstSep cs = none := by
    have hs := splitFirstSep_isSome cs
    rw [h] at hs
    exact Option.not_isSome_iff_eq_none.mp (by simp [hs])
  simp [splitSenderBody, this]

theorem splitSenderBody_sep {cs : List Char}
    (h : containsSub sepTok cs = true) :
    cs = (splitSenderBody cs).1 ++ ':' :: ' ' :: (splitSenderBody cs).2 ∧
    containsSub sepTok (splitSenderBody cs).1 = false := by
  have hs := splitFirstSep_isSome cs
  rw [h] at hs
  cases hp : splitFirstSep cs with
  | none =>
    rw [hp] at hs
    cases hs
  | some p =>
    obtain ⟨h1, h2⟩ := splitFirstSep_spec hp
    have hsb : splitSenderBody cs = p := by
      unfold splitSenderBody
      rw [hp]
    rw [hsb]
    exact ⟨h1, h2⟩

-- ===== lemmas: preprocess error behaviour =====

theorem mapM_eq_none_iff {α β : Type} (f : α → Option β) (l : List α) :
    l.mapM f = none ↔ ∃ a ∈ l, f a = none := by
  induction l with
  | nil =>
    constructor
    · intro hcon
      exact Option.noConfusion hcon
    · rintro ⟨x, hx, _⟩
      cases hx
  | cons a l ih =>
    have hc : (a :: l).mapM f =
        (f a).bind (fun b => (l.mapM f).bind (fun bs => some (b :: bs))) := by
      rw [List.mapM_cons]
      rfl
    rw [hc]
    cases hfa : f a with
    | none =>
      simp only [Option.none_bind]
      constructor
      · intro _
        exact ⟨a, List.mem_cons_self _ _, hfa⟩
      · intro _
        trivial
    | some b =>
      cases hml : l.mapM f with
      | none =>
        simp only [Option.some_bind, Option.none_bind]
        constructor
        · intro _
          obtain ⟨x, hx, hfx⟩ := ih.mp hml
          exact ⟨x, List.mem_cons_of_mem _ hx, hfx⟩
        · intro _
          trivial
      | some bs =>
        simp only [Option.some_bind]
        constructor
        · intro hcon
          cases hcon
        · rintro ⟨x, hx, hfx⟩
          rcases List.mem_cons.mp hx with rfl | hx
          · rw [hfa] at hfx
            cases hfx
          · have := ih.mpr ⟨x, hx, hfx⟩
            rw [hml] at this
            cases this

theorem preprocess_error_iff (data : List Char) :
    (preprocess data).isOk = false ↔
    ∃ m ∈ scanMatches (normalizeNnbsp data), parseDT m.g1 = none := by
  cases h : (scanMatches (normalizeNnbsp data)).mapM (fun m => parseDT m.g1) with
  | none =>
    simp only [preprocess, h]
    constructor
    · intro _
      exact (mapM_eq_none_iff _ _).mp h
    · intro _
      rfl
  | some ts =>
    simp only [preprocess, h]
    constructor
    · intro hcon
      exact Bool.noConfusion hcon
    · intro hex
      have := (mapM_eq_none_iff _ _).mpr hex
      rw [h] at this
      cases this

-- ===== lemmas: sorting =====

theorem insertSortedBy_perm {α : Type} (le : α → α → Bool) (a : α) :
    ∀ l : List α, (insertSortedBy le a l).Perm (a :: l) := by
  intro l
  induction l with
  | nil => exact List.Perm.refl _
  | cons b bs ih =>
    unfold insertSortedBy
    split
    · exact List.Perm.refl _
    · exact (ih.cons b).trans (List.Perm.swap a b bs)

theorem insertionSort_perm {α : Type} (le : α → α → Bool) (l : List α) :
    (insertionSort le l).Perm l := by
  induction l with
  | nil => exact List.Perm.refl _
  | cons a t ih =>
    exact (insertSortedBy_perm le a (insertionSort le t)).trans (ih.cons a)

theorem insertSortedBy_headD {α : Type} (le : α → α → Bool) (a : α)
    (l : List α) {x : α} (hx : (insertSortedBy le a l).head? = some x) :
    x = a ∨ l.head? = some x := by
  cases l with
  | nil =>
    simp [insertSortedBy] at hx
    exact Or.inl hx.symm
  | cons b bs =>
    unfold insertSortedBy at hx
    split at hx
    · simp at hx
      exact Or.inl hx.symm
    · simp at hx
      exact Or.inr (by simp [hx])

theorem chain'_insertSortedBy {α : Type} (le : α → α → Bool) (R : α → α → Prop)
    (hle : ∀ x y, le x y = true → R x y)
    (hnle : ∀ x y, le x y = false → R y x) (a : α) :
    ∀ {l : List α}, List.Chain' R l → List.Chain' R (insertSortedBy le a l) := by
  intro l
  induction l with
  | nil => intro _; simp [insertSortedBy]
  | cons b bs ih =>
    intro h
    unfold insertSortedBy
    cases hab : le a b with
    | true =>
      rw [if_pos rfl]
      exact List.chain'_cons.mpr ⟨hle _ _ hab, h⟩
    | false =>
      rw [if_neg (by simp)]
      have htail := ih (List.Chain'.tail h)
      refine List.chain'_cons'.mpr ⟨?_, htail⟩
      intro x hx
      rcases insertSortedBy_headD le a bs hx with rfl | hhead
      · exact hnle _ _ hab
      · exact (List.chain'_cons'.mp h).1 x hhead

theorem chain'_insertionSort {α : Type} (le : α → α → Bool) (R : α → α → Prop)
    (hle : ∀ x y, le x y = true → R x y)
    (hnle : ∀ x y, le x y = false → R y x) (l : List α) :
    List.Chain' R (insertionSort le l) := by
  induction l with
  | nil => simp [insertionSort]
  | cons a t ih => exact chain'_insertSortedBy le R hle hnle a ih

-- ===== lemmas: percentage arithmetic =====

theorem roundCent_close (q : ℚ) : |roundCent q - q| ≤ 1 / 200 := by
  have h1 : ((⌊q * 100 + 1 / 2⌋ : ℤ) : ℚ) ≤ q * 100 + 1 / 2 := Int.floor_le _
  have h2 : q * 100 + 1 / 2 - 1 < ((⌊q * 100 + 1 / 2⌋ : ℤ) : ℚ) :=
    Int.sub_one_lt_floor _
  rw [roundCent, abs_le]
  constructor <;> [linarith; linarith]

theorem list_abs_sum_sub_le {α : Type} (f g : α → ℚ) (l : List α) :
    |(l.map f).sum - (l.map g).sum| ≤ (l.map (fun a => |f a - g a|)).sum := by
  induction l with
  | nil => simp
  | cons a t ih =>
    simp only [List.map_cons, List.sum_cons]
    have habs := abs_add (f a - g a) ((t.map f).sum - (t.map g).sum)
    have heq : f a + (t.map f).sum - (g a + (t.map g).sum) =
        (f a - g a) + ((t.map f).sum - (t.map g).sum) := by ring
    rw [heq]
    linarith

theorem list_sum_le_length_mul {α : Type} (f : α → ℚ) (c : ℚ) (l : List α)
    (h : ∀ a ∈ l, f a ≤ c) : (l.map f).sum ≤ l.length * c := by
  induction l with
  | nil => simp
  | cons a t ih =>
    simp only [List.map_cons, List.sum_cons, List.length_cons]
    have h1 := h a (List.mem_cons_self _ _)
    have h2 := ih (fun x hx => h x (List.mem_cons_of_mem _ hx))
    have : ((t.length + 1 : Nat) : ℚ) = (t.length : ℚ) + 1 := by push_cast; ring
    rw [this]
    linarith

theorem sum_groupCounts (keys : List (List Char)) :
    ((groupCounts keys).map Prod.snd).sum = keys.length := by
  unfold groupCounts
  rw [List.map_map]
  have hperm := (insertionSort_perm lexLt keys.dedup).map
    (Prod.snd ∘ fun k => (k, keys.count k))
  rw [hperm.sum_eq]
  have hco : (Prod.snd ∘ fun k => (k, keys.count k)) = fun x => keys.count x := rfl
  rw [hco]
  have hinst : ∀ x : List Char, keys.count x =
      @List.count (List Char) instBEqOfDecidableEq x keys := by
    intro x
    unfold List.count
    congr 1
    funext y
    by_cases h : y = x <;> simp [h]
  simp only [hinst]
  exact List.sum_map_count_dedup_eq_length keys

theorem sum_value_counts (df : List Record) :
    ((value_counts df).map Prod.snd).sum = df.length := by
  unfold value_counts
  have hperm := (insertionSort_perm countGe
    (groupCounts (df.map (fun m => m.sender)))).map Prod.snd
  rw [hperm.sum_eq, sum_groupCounts, List.length_map]

-- ===== lemmas: substring and prefix facts for the split claim =====

theorem isPrefixOf_append_self (l t : List Char) : l.isPrefixOf (l ++ t) = true := by
  induction l with
  | nil => simp [List.isPrefixOf]
  | cons c cs ih => simp [List.isPrefixOf, ih]

theorem eq_append_of_isPrefixOf {l cs : List Char} (h : l.isPrefixOf cs = true) :
    ∃ t, cs = l ++ t := by
  induction l generalizing cs with
  | nil => exact ⟨cs, rfl⟩
  | cons c l ih =>
    cases cs with
    | nil => cases h
    | cons d ds =>
      simp only [List.isPrefixOf, Bool.and_eq_true, beq_iff_eq] at h
      obtain ⟨rfl, h2⟩ := h
      obtain ⟨t, rfl⟩ := ih h2
      exact ⟨t, rfl⟩

theorem containsSub_sep_mid (x y : List Char) :
    containsSub sepTok (x ++ sepTok ++ y) = true := by
  induction x with
  | nil =>
    have : sepTok ++ y = ':' :: ' ' :: y := rfl
    simp only [List.nil_append, this, containsSub]
    simp [sepTok, List.isPrefixOf]
  | cons c t ih =>
    show containsSub sepTok (c :: (t ++ sepTok ++ y)) = true
    have hstep : containsSub sepTok (c :: (t ++ sepTok ++ y)) =
        (sepTok.isPrefixOf (c :: (t ++ sepTok ++ y)) ||
          containsSub sepTok (t ++ sepTok ++ y)) := rfl
    rw [hstep, ih, Bool.or_true]

theorem userMessage_has_sep (m : RawMatch) :
    containsSub sepTok (userMessage m) = true := by
  have : userMessage m = m.g2 ++ sepTok ++ pyStrip m.g3 := rfl
  rw [this]
  exact containsSub_sep_mid _ _

theorem group_notification_no_colon : ':' ∉ "group_notification".data := by decide

theorem splitSenderBody_sentinel_iff (frag : List Char) :
    (splitSenderBody frag).1 = "group_notification".data ↔
    (containsSub sepTok frag = false ∨
      "group_notification: ".data.isPrefixOf frag = true) := by
  constructor
  · intro hs
    cases hc : containsSub sepTok frag with
    | false => exact Or.inl rfl
    | true =>
      obtain ⟨h1, _⟩ := splitSenderBody_sep hc
      refine Or.inr ?_
      rw [hs] at h1
      have hshape : frag = "group_notification: ".data ++ (splitSenderBody frag).2 := by
        rw [h1]
        rfl
      rw [hshape]
      exact isPrefixOf_append_self _ _
  · intro h
    rcases h with hc | hp
    · rw [splitSenderBody_no_sep hc]
    · obtain ⟨t, rfl⟩ := eq_append_of_isPrefixOf hp
      have hshape : "group_notification: ".data ++ t =
          "group_notification".data ++ ':' :: ' ' :: t := rfl
      rw [hshape]
      unfold splitSenderBody
      rw [splitFirstSep_round group_notification_no_colon t]

-- ===== lemmas: empty-selection behaviour =====

theorem top_n_words_empty {df : List Record} (h : filter_media df = []) (n : Nat) :
    top_n_words df n =
      .error "empty vocabulary; perhaps the documents only contain stop words" := by
  unfold top_n_words
  rw [h]
  rfl

theorem generate_wordcloud_empty {df : List Record} (h : filter_media df = []) :
    generate_wordcloud df =
      .error "We need at least 1 word to plot a word cloud, got 0." := by
  unfold generate_wordcloud
  rw [h]
  rfl

theorem sentiment_time_series_empty {df : List Record}
    (h : filter_media df = []) : sentiment_time_series df = [] := by
  unfold sentiment_time_series
  rw [h]

theorem messages_per_user_empty {df : List Record}
    (h : filter_media df = []) : messages_per_user df = [] := by
  unfold messages_per_user
  rw [h]
  rfl

theorem activity_heatmap_empty {df : List Record}
    (h : filter_media df = []) : activity_heatmap df = [] := by
  unfold activity_heatmap
  rw [h]
  rfl

-- ===== lemmas: marker-case invariance =====

theorem lowerList_marker_idem {m : List Char}
    (h : lowerList m = ['a', 'm'] ∨ lowerList m = ['p', 'm']) :
    lowerList (lowerList m) = lowerList m := by
  rcases h with h | h <;> rw [h] <;> rfl

theorem entryWF_lowerMarker {e : Entry} (h : entryWF e = true) :
    entryWF (lowerMarker e) = true := by
  obtain ⟨_, _, _, _, _, _, _, _, hmk, _⟩ := entryWF_props h
  have hidem := lowerList_marker_idem hmk
  simp only [entryWF, lowerMarker] at h ⊢
  rw [hidem]
  exact h

theorem entryTs_lowerMarker {e : Entry} (h : entryWF e = true) :
    entryTs (lowerMarker e) = entryTs e := by
  obtain ⟨_, _, _, _, _, _, _, _, hmk, _⟩ := entryWF_props h
  have hidem := lowerList_marker_idem hmk
  simp only [entryTs, lowerMarker]
  simp only [hidem]

theorem entryRecord_lowerMarker {e : Entry} (h : entryWF e = true) :
    entryRecord (lowerMarker e) = entryRecord e := by
  unfold entryRecord
  rw [entryTs_lowerMarker h]
  rfl

-- ===== claim theorems =====

/-- C1, counterexample: the claim "sender = group_notification iff the
matched fragment contains no `": "` separator" is false on the code.  The
transcript entry `1/1/23, 10:00 am - group_notification: hi` parses to a
record whose sender is the sentinel `group_notification`, yet its matched
fragment (the reassembled `user_message`) does contain the `": "`
separator: a participant literally named `group_notification` is
indistinguishable from the sentinel. -/
theorem c1_counterexample :
    preprocess "1/1/23, 10:00 am - group_notification: hi".data =
      .ok [⟨⟨2023, 1, 1, 10, 0⟩, "group_notification".data, "hi".data⟩] ∧
    (scanMatches "1/1/23, 10:00 am - group_notification: hi".data).map
      (fun m => containsSub sepTok (userMessage m)) = [true] := by
  decide

/-- C1 (amended): for every fragment processed by the sender/body split of
`preprocess`, (i) when the fragment has no `": "` the sentinel is assigned
and the whole fragment becomes the body, (ii) when it has one the fragment
is split at the first `": "` (the part before the split contains no
separator), and (iii) the resulting sender is `group_notification` exactly
when the fragment has no separator or starts with the literal text
`group_notification: ` — not "iff the fragment contains no separator";
moreover every fragment reassembled from a scanner match contains `": "`,
so matched entries always take the split branch. -/
theorem c1_amended_split (frag s b : List Char)
    (h : splitSenderBody frag = (s, b)) :
    (containsSub sepTok frag = false →
      s = "group_notification".data ∧ b = frag) ∧
    (containsSub sepTok frag = true →
      frag = s ++ ':' :: ' ' :: b ∧ containsSub sepTok s = false) ∧
    (s = "group_notification".data ↔
      (containsSub sepTok frag = false ∨
        "group_notification: ".data.isPrefixOf frag = true)) ∧
    (∀ m : RawMatch, containsSub sepTok (userMessage m) = true) := by
  refine ⟨?_, ?_, ?_, userMessage_has_sep⟩
  · intro hc
    have hns := splitSenderBody_no_sep hc
    rw [h] at hns
    exact ⟨congrArg Prod.fst hns, congrArg Prod.snd hns⟩
  · intro hc
    have hsp := splitSenderBody_sep hc
    rw [h] at hsp
    exact hsp
  · have hs : (splitSenderBody frag).1 = s := by rw [h]
    rw [← hs]
    exact splitSenderBody_sentinel_iff frag

/-- C1, witness: the amended statement instantiated at the concrete
fragment `Alice: hi`, which splits into `Alice` and `hi`. -/
theorem c1_amended_split_witness :
    (containsSub sepTok "Alice: hi".data = false →
      "Alice".data = "group_notification".data ∧
        "hi".data = "Alice: hi".data) ∧
    (containsSub sepTok "Alice: hi".data = true →
      "Alice: hi".data = "Alice".data ++ ':' :: ' ' :: "hi".data ∧
        containsSub sepTok "Alice".data = false) ∧
    ("Alice".data = "group_notification".data ↔
      (containsSub sepTok "Alice: hi".data = false ∨
        "group_notification: ".data.isPrefixOf "Alice: hi".data = true)) ∧
    containsSub sepTok
      (userMessage ⟨"1/1/23, 10:00 am".data, "Alice".data, "hi".data⟩) =
      true := by
  have h := c1_amended_split "Alice: hi".data "Alice".data "hi".data (by decide)
  exact ⟨h.1, h.2.1, h.2.2.1, h.2.2.2 ⟨"1/1/23, 10:00 am".data, "Alice".data,
    "hi".data⟩⟩

/-- C2, counterexample: `top_n_words` and `generate_wordcloud` raise on a
selection that is empty after substantive filtering (a single
media-placeholder message), contradicting the claim that every Aggregator
function returns an empty result without raising. -/
theorem c2_counterexample :
    top_n_words [⟨⟨2023, 1, 2, 10, 0⟩, "Alice".data, "<Media omitted>".data⟩]
        20 =
      .error "empty vocabulary; perhaps the documents only contain stop words" ∧
    generate_wordcloud
        [⟨⟨2023, 1, 2, 10, 0⟩, "Alice".data, "<Media omitted>".data⟩] =
      .error "We need at least 1 word to plot a word cloud, got 0." := by
  decide

/-- C2 (amended): on a selection that is empty after substantive
filtering, `sentiment_time_series`, `messages_per_user` and
`activity_heatmap` return well-typed empty results, and
`avg_msg_per_user` and `fetch_stats` return empty/zero results on an empty
frame — but `top_n_words` and `generate_wordcloud` raise (the
CountVectorizer empty-vocabulary error and the WordCloud zero-words
error). -/
theorem c2_amended_empty_scope :
    (∀ (df : List Record) (n : Nat), filter_media df = [] →
      top_n_words df n =
        .error "empty vocabulary; perhaps the documents only contain stop words") ∧
    (∀ df : List Record, filter_media df = [] →
      generate_wordcloud df =
        .error "We need at least 1 word to plot a word cloud, got 0.") ∧
    (∀ df : List Record, filter_media df = [] → sentiment_time_series df = []) ∧
    (∀ df : List Record, filter_media df = [] → messages_per_user df = []) ∧
    (∀ df : List Record, filter_media df = [] → activity_heatmap df = []) ∧
    avg_msg_per_user [] = [] ∧
    fetch_stats "Overall".data [] = (0, 0, 0, 0, 0) :=
  ⟨fun _ n h => top_n_words_empty h n,
   fun _ h => generate_wordcloud_empty h,
   fun _ h => sentiment_time_series_empty h,
   fun _ h => messages_per_user_empty h,
   fun _ h => activity_heatmap_empty h,
   rfl, rfl⟩

/-- C2, witness: the amended statement instantiated at a one-row frame
holding only a media placeholder, whose substantive subset is empty. -/
theorem c2_amended_empty_scope_witness :
    filter_media [⟨⟨2023, 1, 2, 10, 0⟩, "A".data, "<Media omitted>".data⟩] = [] ∧
    top_n_words [⟨⟨2023, 1, 2, 10, 0⟩, "A".data, "<Media omitted>".data⟩] 20 =
      .error "empty vocabulary; perhaps the documents only contain stop words" ∧
    sentiment_time_series
      [⟨⟨2023, 1, 2, 10, 0⟩, "A".data, "<Media omitted>".data⟩] = [] ∧
    avg_msg_per_user [] = [] :=
  ⟨by decide,
   c2_amended_empty_scope.1 _ 20 (by decide),
   c2_amended_empty_scope.2.2.1 _ (by decide),
   c2_amended_empty_scope.2.2.2.2.2.1⟩

/-- C3, counterexample: a transcript with zero matchable entries does NOT
raise — `preprocess "hello"` finds no matches and returns an empty record
set, contradicting the claim that zero matchable entries are a hard
failure. -/
theorem c3_counterexample :
    scanMatches (normalizeNnbsp "hello".data) = [] ∧
    preprocess "hello".data = .ok [] := by
  decide

/-- C3 (amended): `preprocess` fails exactly when some entry matched by the
scan pattern has a date-time fragment that the fixed format
`%d/%m/%y, %I:%M %p` rejects; a transcript with zero matches parses to an
empty record set, and in every other case the whole transcript parses
(a single bad fragment fails the whole call — no partial recovery). -/
theorem c3_amended_error_iff (data : List Char) :
    (preprocess data).isOk = false ↔
    ∃ m ∈ scanMatches (normalizeNnbsp data), parseDT m.g1 = none :=
  preprocess_error_iff data

/-- C4, counterexample: the heatmap does not have 24 rows for every input.
For a frame with one substantive message (2/1/23 at hour 10, a Monday) the
pivot has exactly one row — only observed hours become rows — though it
does have all 7 weekday columns. -/
theorem c4_counterexample :
    activity_heatmap [⟨⟨2023, 1, 2, 10, 0⟩, "Alice".data, "hi".data⟩] =
      [(10, [1, 0, 0, 0, 0, 0, 0])] ∧
    (activity_heatmap [⟨⟨2023, 1, 2, 10, 0⟩, "Alice".data, "hi".data⟩]).length
      = 1 := by
  decide

/-- C4 (amended): every row of `activity_heatmap` has exactly 7 weekday
columns (Monday–Sunday, absent combinations filled with 0), but the rows
are exactly the distinct hours observed among the substantive messages —
an hour with no messages produces no row, so there are 24 rows only when
every hour occurs. -/
theorem c4_amended_shape (df : List Record) :
    ((activity_heatmap df).map (fun row => row.2.length)).all
      (fun len => len == 7) = true ∧
    (activity_heatmap df).length =
      ((filter_media df).map (fun m => m.date.hour)).dedup.length := by
  constructor
  · rw [List.all_eq_true]
    intro x hx
    obtain ⟨row, hrow, rfl⟩ := List.mem_map.mp hx
    unfold activity_heatmap at hrow
    obtain ⟨hh, _, rfl⟩ := List.mem_map.mp hrow
    simp
  · unfold activity_heatmap sortedHours
    rw [List.length_map]
    exact (insertionSort_perm _ _).length_eq

/-- C5, counterexample: `sentiment_time_series` is not sparse.  Two
substantive messages 20 days apart produce three 7-day windows; the middle
window contains no message yet still yields a row, with a missing (`none`,
pandas `NaN`) mean — the claim says such a window produces no row. -/
theorem c5_counterexample :
    (sentiment_time_series
      [⟨⟨2023, 1, 1, 9, 0⟩, "Alice".data, "x".data⟩,
       ⟨⟨2023, 1, 21, 9, 0⟩, "Alice".data, "y".data⟩]).map
        (fun row => (row.1, row.2.isNone)) =
      [(0, false), (1, true), (2, false)] := by
  decide

/-- C5 (amended): `sentiment_time_series` is dense, like the daily and
monthly volumes: its rows are exactly the consecutive 7-day windows
0, 1, ..., n-1 from the first observed day through the window of the last
observed day, so a window inside the range with no messages still produces
a row (whose mean is missing) rather than no row. -/
theorem c5_amended_dense (df : List Record) :
    (sentiment_time_series df).map Prod.fst =
      List.range (sentiment_time_series df).length := by
  unfold sentiment_time_series
  cases h : filter_media df with
  | nil => rfl
  | cons m0 rest =>
    simp only [List.map_map, List.length_map, List.length_range]
    have hstep : ∀ (N : Nat) (g : Nat → Nat × Option ℚ),
        (∀ k, (g k).1 = k) →
        List.map (Prod.fst ∘ g) (List.range N) = List.range N := by
      intro N g hg
      have h1 : List.map (Prod.fst ∘ g) (List.range N) =
          List.map id (List.range N) :=
        List.map_congr_left (fun a _ => hg a)
      rw [h1, List.map_id]
    exact hstep _ _ (fun k => rfl)

/-- C6: the URL count of `fetch_stats` is NOT scoped.  On a frame where
Alice's one message holds one URL and Bob's holds another, the stats for
the scope `Alice` are one message, one word, no media, no emoji — but TWO
URLs, because the URL loop iterates over the whole `df` parameter rather
than the scoped subset; Alice's own messages contain only one URL.  This
contradicts the function's own contract of returning stats "for Overall or
specific user". -/
theorem c6_url_count_unscoped :
    fetch_stats "Alice".data
      [⟨⟨2023, 1, 2, 10, 0⟩, "Alice".data, "http://a.com".data⟩,
       ⟨⟨2023, 1, 2, 10, 5⟩, "Bob".data, "see http://b.com".data⟩] =
      (1, 1, 0, 0, 2) ∧
    (((([⟨⟨2023, 1, 2, 10, 0⟩, "Alice".data, "http://a.com".data⟩,
       ⟨⟨2023, 1, 2, 10, 5⟩, "Bob".data,
        "see http://b.com".data⟩] : List Record).filter
      (fun m => m.sender == "Alice".data)).map
        (fun m => find_urls m.text)).flatten).length = 1 := by
  decide

/-- C7, counterexample: ties are NOT broken by first-encountered sender
order.  With Bob's message first and Alice's second, both with one
substantive message, `messages_per_user` returns Alice first — `groupby`
pre-sorts the senders alphabetically, so the claimed order
`[(Bob, 1), (Alice, 1)]` is not produced. -/
theorem c7_counterexample :
    messages_per_user
      [⟨⟨2023, 1, 2, 10, 0⟩, "Bob".data, "hi".data⟩,
       ⟨⟨2023, 1, 2, 10, 5⟩, "Alice".data, "yo".data⟩] =
      [("Alice".data, 1), ("Bob".data, 1)] ∧
    messages_per_user
      [⟨⟨2023, 1, 2, 10, 0⟩, "Bob".data, "hi".data⟩,
       ⟨⟨2023, 1, 2, 10, 5⟩, "Alice".data, "yo".data⟩] ≠
      [("Bob".data, 1), ("Alice".data, 1)] := by
  decide

/-- C7 (amended): `messages_per_user` returns at most 10 senders with
substantive message counts in non-increasing order; equal counts appear in
the order left by the preceding alphabetical grouping (ascending sender
order for small inputs), not in first-encountered order. -/
theorem c7_amended_top10_desc (df : List Record) :
    (messages_per_user df).length ≤ 10 ∧
    List.Chain' (fun a b => b.2 ≤ a.2) (messages_per_user df) := by
  constructor
  · unfold messages_per_user
    exact List.length_take_le _ _
  · unfold messages_per_user
    refine List.Chain'.take ?_ _
    refine chain'_insertionSort countGe _ ?_ ?_ _
    · intro x y hxy
      simpa [countGe] using hxy
    · intro x y hxy
      have hnot : ¬(y.2 ≤ x.2) := by simpa [countGe] using hxy
      omega

/-- C8: the rounded share percentages of `avg_msg_per_user` sum to 100
within a tolerance of 0.01 per sender entry, for every non-empty frame:
the exact shares sum to exactly 100 because the per-sender counts sum to
the total, and each 2-decimal rounding moves a share by at most 0.005. -/
theorem c8_share_sum (df : List Record) (h : df ≠ []) :
    |((avg_msg_per_user df).map Prod.snd).sum - 100| ≤
      ((avg_msg_per_user df).length : ℚ) * (1 / 100) := by
  have hT : ((df.length : Nat) : ℚ) ≠ 0 := by
    have hne : df.length ≠ 0 := fun h0 => h (List.length_eq_zero.mp h0)
    exact_mod_cast hne
  have hmap : (avg_msg_per_user df).map Prod.snd =
      (value_counts df).map
        (fun p => roundCent ((p.2 : ℚ) / ((df.length : Nat) : ℚ) * 100)) := by
    unfold avg_msg_per_user
    rw [List.map_map]
    rfl
  have hlen : (avg_msg_per_user df).length = (value_counts df).length := by
    unfold avg_msg_per_user
    rw [List.length_map]
  have hsum_pct : ((value_counts df).map
      (fun p => (p.2 : ℚ) / ((df.length : Nat) : ℚ) * 100)).sum = 100 := by
    have h1 : ∀ p : List Char × Nat,
        (p.2 : ℚ) / ((df.length : Nat) : ℚ) * 100 =
        (p.2 : ℚ) * (100 / ((df.length : Nat) : ℚ)) := fun p => by ring
    simp only [h1]
    rw [List.sum_map_mul_right]
    have hcast : ((value_counts df).map (fun p => ((p.2 : Nat) : ℚ))).sum =
        ((((value_counts df).map Prod.snd).sum : Nat) : ℚ) := by
      induction value_counts df with
      | nil => simp
      | cons a t ih => simp [ih]
    rw [hcast, sum_value_counts]
    field_simp
  have herr := list_abs_sum_sub_le
    (fun p => roundCent ((p.2 : ℚ) / ((df.length : Nat) : ℚ) * 100))
    (fun p => (p.2 : ℚ) / ((df.length : Nat) : ℚ) * 100) (value_counts df)
  have hbound : ((value_counts df).map
      (fun p => |roundCent ((p.2 : ℚ) / ((df.length : Nat) : ℚ) * 100) -
        (p.2 : ℚ) / ((df.length : Nat) : ℚ) * 100|)).sum ≤
      ((value_counts df).length : ℚ) * (1 / 200) :=
    list_sum_le_length_mul _ _ _ (fun p _ => roundCent_close _)
  have hn : (0 : ℚ) ≤ ((value_counts df).length : ℚ) := by positivity
  rw [hmap, hlen]
  rw [hsum_pct] at herr
  have : ((value_counts df).length : ℚ) * (1 / 200) ≤
      ((value_counts df).length : ℚ) * (1 / 100) := by nlinarith
  linarith

/-- C8, witness: the bound instantiated at a concrete two-sender frame. -/
theorem c8_share_sum_witness :
    ([⟨⟨2023, 1, 2, 10, 0⟩, "Alice".data, "hi".data⟩,
      ⟨⟨2023, 1, 2, 10, 5⟩, "Bob".data, "yo".data⟩] : List Record) ≠ [] ∧
    |((avg_msg_per_user
        [⟨⟨2023, 1, 2, 10, 0⟩, "Alice".data, "hi".data⟩,
         ⟨⟨2023, 1, 2, 10, 5⟩, "Bob".data, "yo".data⟩]).map Prod.snd).sum -
      100| ≤
      ((avg_msg_per_user
        [⟨⟨2023, 1, 2, 10, 0⟩, "Alice".data, "hi".data⟩,
         ⟨⟨2023, 1, 2, 10, 5⟩, "Bob".data, "yo".data⟩]).length : ℚ) *
        (1 / 100) :=
  ⟨by decide, c8_share_sum _ (by decide)⟩

/-- C9: round-trip.  For every sequence of well-formed synthetic entries in
the fixed format `<date>, <time> <am|pm> - <sender>: <body>` (valid
calendar date and 12-hour time, two-letter am/pm marker in any case,
non-empty colon-free sender, non-empty stripped single-line body, no
narrow no-break space), `preprocess` of the rendered transcript succeeds
and returns exactly one record per entry, whose `(sender, body)` pair is
the input pair with the `": "` separator removed and whose timestamp is
the entry's date and time. -/
theorem c9_roundtrip (es : List Entry) (h : ∀ e ∈ es, entryWF e = true) :
    preprocess (renderList es) = .ok (es.map entryRecord) ∧
    (es.map entryRecord).length = es.length :=
  ⟨preprocess_renderList h, List.length_map _ _⟩

/-- C9, witness: the round trip instantiated at a concrete two-entry
transcript (a multi-word sender and a body containing a further `": "`). -/
theorem c9_roundtrip_witness :
    entryWF ⟨5, 12, 23, 9, 5, "pm".data, "Alice Smith".data,
      "hello there".data⟩ = true ∧
    entryWF ⟨28, 2, 99, 12, 0, "am".data, "Bob".data, "x: y z".data⟩ = true ∧
    preprocess (renderList
      [⟨5, 12, 23, 9, 5, "pm".data, "Alice Smith".data, "hello there".data⟩,
       ⟨28, 2, 99, 12, 0, "am".data, "Bob".data, "x: y z".data⟩]) =
      .ok ([⟨5, 12, 23, 9, 5, "pm".data, "Alice Smith".data,
          "hello there".data⟩,
        ⟨28, 2, 99, 12, 0, "am".data, "Bob".data,
          "x: y z".data⟩].map entryRecord) ∧
    ([(⟨5, 12, 23, 9, 5, "pm".data, "Alice Smith".data,
        "hello there".data⟩ : Entry),
      ⟨28, 2, 99, 12, 0, "am".data, "Bob".data,
        "x: y z".data⟩].map entryRecord).length = 2 :=
  ⟨by decide, by decide,
   (c9_roundtrip _ (by decide)).1,
   by decide⟩

/-- C10: the entry pattern matches the am/pm marker case-insensitively and
`strptime`'s `%p` accepts any letter case, so replacing the markers of a
well-formed synthetic transcript by any mixed-case variants leaves the
parsed record sequence — timestamps, senders and bodies — unchanged:
parsing the transcript equals parsing the same transcript with every
marker lower-cased. -/
theorem c10_marker_case (es : List Entry) (h : ∀ e ∈ es, entryWF e = true) :
    preprocess (renderList (es.map lowerMarker)) =
      preprocess (renderList es) := by
  have hwfL : ∀ e ∈ es.map lowerMarker, entryWF e = true := by
    intro e he
    obtain ⟨e0, he0, rfl⟩ := List.mem_map.mp he
    exact entryWF_lowerMarker (h e0 he0)
  rw [preprocess_renderList h, preprocess_renderList hwfL]
  have hrec : (es.map lowerMarker).map entryRecord = es.map entryRecord := by
    rw [List.map_map]
    exact List.map_congr_left (fun e he => entryRecord_lowerMarker (h e he))
  rw [hrec]

/-- C10, witness: a transcript written with the markers `pM` and `AM`
parses to exactly the same records as its lower-cased variant. -/
theorem c10_marker_case_witness :
    entryWF ⟨5, 12, 23, 9, 5, "pM".data, "Alice".data, "hi".data⟩ = true ∧
    entryWF ⟨6, 12, 23, 11, 30, "AM".data, "Bob".data, "yo".data⟩ = true ∧
    preprocess (renderList
      ([⟨5, 12, 23, 9, 5, "pM".data, "Alice".data, "hi".data⟩,
        ⟨6, 12, 23, 11, 30, "AM".data, "Bob".data,
          "yo".data⟩].map lowerMarker)) =
      preprocess (renderList
        [⟨5, 12, 23, 9, 5, "pM".data, "Alice".data, "hi".data⟩,
         ⟨6, 12, 23, 11, 30, "AM".data, "Bob".data, "yo".data⟩]) :=
  ⟨by decide, by decide, c10_marker_case _ (by decide)⟩

/-- C3, witness: the characterisation instantiated at the zero-match
transcript `hello`. -/
theorem c3_amended_error_iff_witness :
    (preprocess "hello".data).isOk = false ↔
    ∃ m ∈ scanMatches (normalizeNnbsp "hello".data), parseDT m.g1 = none :=
  c3_amended_error_iff "hello".data
